import Mathlib

/-!
# DccExInterface: bounded queue and duplex channel

Shallow embedding of `include/Queue.h` and of the command-station (`CS_COM`)
configuration of `include/DccExInterface.h` / `src/DccExInterface.cpp`.

* `Queue T S` embeds the class template `Queue<T,S>`: a backing array of `S`
  slots and the two indices `head_` and `tail_`.  The indices are `size_t`;
  they are kept as natural numbers because every intermediate value of the
  source (`tail_ + 1`, `head_ + 1`, `tail_ + S - head_`) is below `2 * S`, and
  an array of `S` elements cannot exist unless `2 * S` fits `size_t`.
* Diagnostic output (`ERR`, `WARN`, `INFO`, `TRC`) is not part of the state.
-/

namespace DccEx

/-! ## Queue.h -/

/-- The class template `Queue<T,S>`: `T queue_[S]; size_t head_; size_t tail_;`. -/
structure Queue (T : Type) (S : Nat) where
  queue_ : List T
  head_ : Nat
  tail_ : Nat
deriving DecidableEq, Repr

namespace Queue

variable {T : Type} {S : Nat}

/-- The constructor `Queue() : head_(0), tail_(0) {}`.  It does not write the
backing array, so the content `mem` of the `S` slots is whatever the storage
holds at construction. -/
def new (mem : List T) : Queue T S :=
  { queue_ := mem, head_ := 0, tail_ := 0 }

/-- Source: `bool isEmpty() const { return head_ == tail_; }` -/
def isEmpty (q : Queue T S) : Bool :=
  q.head_ == q.tail_

/-- Source: `bool isFull() const { return (tail_ + 1) % S == head_; }` -/
def isFull (q : Queue T S) : Bool :=
  (q.tail_ + 1) % S == q.head_

/-- Source: `void push(const T &element)`: returns at once on a full queue, otherwise
`queue_[tail_] = element; tail_ = (tail_ + 1) % S;`. -/
def push (q : Queue T S) (element : T) : Queue T S :=
  if q.isFull then q
  else { q with queue_ := q.queue_.set q.tail_ element, tail_ := (q.tail_ + 1) % S }

/-- Source: `T pop()`: `T()` on an empty queue, otherwise `queue_[head_]` and
`head_ = (head_ + 1) % S`.  The result is the returned element and the queue
after the call. -/
def pop [Inhabited T] (q : Queue T S) : T × Queue T S :=
  if q.isEmpty then (default, q)
  else (q.queue_.getD q.head_ default, { q with head_ := (q.head_ + 1) % S })

/-- Source: `T peek()`: `T()` on an empty queue, otherwise `queue_[head_]`; no member is
written. -/
def peek [Inhabited T] (q : Queue T S) : T :=
  if q.isEmpty then default else q.queue_.getD q.head_ default

/-- Source: `size_t size() const { return (tail_ + S - head_) % S; }` -/
def size (q : Queue T S) : Nat :=
  (q.tail_ + S - q.head_) % S

/-- The representation invariant: the backing array has `S` slots and both
indices address one of them. -/
def Inv (q : Queue T S) : Prop :=
  q.queue_.length = S ∧ q.head_ < S ∧ q.tail_ < S

instance (q : Queue T S) : Decidable q.Inv := by
  unfold Inv; infer_instance

/-- The stored elements, oldest first: the slots `head_, head_ + 1, ...`
(indices modulo `S`) up to, not including, `tail_`. -/
def toList [Inhabited T] (q : Queue T S) : List T :=
  (List.range q.size).map (fun i => q.queue_.getD ((q.head_ + i) % S) default)

/-- Push the elements of `xs` in order. -/
def pushAll (q : Queue T S) (xs : List T) : Queue T S :=
  xs.foldl push q

/-- Call `pop()` `k` times; the results in call order and the final queue. -/
def popN [Inhabited T] : Nat → Queue T S → List T × Queue T S
  | 0, q => ([], q)
  | k + 1, q =>
    let r := q.pop
    let rest := popN k r.2
    (r.1 :: rest.1, rest.2)

/-- Take the stored elements out one by one: call `pop()` until `isEmpty()`
reports an empty queue, at most `fuel` times.  The result is the elements
delivered, in order, and the queue that is left. -/
def drainAux [Inhabited T] : Nat → Queue T S → List T × Queue T S
  | 0, q => ([], q)
  | fuel + 1, q =>
    if q.isEmpty then ([], q)
    else
      let r := q.pop
      let rest := drainAux fuel r.2
      (r.1 :: rest.1, rest.2)

/-- Empty the queue through `pop()`.  A queue of `S` slots never holds `S`
elements, so `S` calls are enough to reach the empty queue. -/
def drain [Inhabited T] (q : Queue T S) : List T × Queue T S :=
  drainAux S q

end Queue

/-- A call on a queue: `push(x)` or `pop()`. -/
inductive QOp (T : Type) where
  | push (x : T)
  | pop
deriving DecidableEq, Repr

namespace Queue

variable {T : Type} {S : Nat}

/-- One call; a `pop()` reports the value it returned. -/
def step [Inhabited T] (q : Queue T S) : QOp T → Option T × Queue T S
  | .push x => (none, q.push x)
  | .pop => (some q.pop.1, q.pop.2)

/-- A sequence of calls, left to right; the values returned by the `pop()`
calls and the final queue. -/
def run [Inhabited T] : Queue T S → List (QOp T) → List T × Queue T S
  | q, [] => ([], q)
  | q, op :: ops =>
    let r := q.step op
    let rest := run r.2 ops
    (r.1.toList ++ rest.1, rest.2)

/-- No call of the sequence hits the error path: no `push` finds the queue
full and no `pop` finds it empty. -/
def NoFault [Inhabited T] : Queue T S → List (QOp T) → Prop
  | _, [] => True
  | q, .push x :: ops => q.isFull = false ∧ NoFault (q.push x) ops
  | q, .pop :: ops => q.isEmpty = false ∧ NoFault q.pop.2 ops

/-- Number of `push` calls in a sequence. -/
def pushes : List (QOp T) → Nat
  | [] => 0
  | .push _ :: ops => pushes ops + 1
  | .pop :: ops => pushes ops

/-- Number of `pop` calls in a sequence. -/
def pops : List (QOp T) → Nat
  | [] => 0
  | .push _ :: ops => pops ops
  | .pop :: ops => pops ops + 1

end Queue

/-- A call of one of the member functions `push`, `pop`, `peek`, `size`,
`isEmpty`, `isFull` of `Queue<T,S>`. -/
inductive QMethod (T : Type) where
  | push (x : T)
  | pop
  | peek
  | size
  | isEmpty
  | isFull
deriving DecidableEq, Repr

/-- What a member function call returns. -/
inductive QResult (T : Type) where
  | void
  | element (x : T)
  | count (n : Nat)
  | flag (b : Bool)
deriving DecidableEq, Repr

namespace Queue

variable {T : Type} {S : Nat}

/-- A member function call as a state transition: the returned value and the
object after the call.  `peek`, `size`, `isEmpty` and `isFull` assign to no
member, so the object after the call is the object before it. -/
def invoke [Inhabited T] (q : Queue T S) : QMethod T → QResult T × Queue T S
  | .push x => (.void, q.push x)
  | .pop => (.element q.pop.1, q.pop.2)
  | .peek => (.element q.peek, q)
  | .size => (.count q.size, q)
  | .isEmpty => (.flag q.isEmpty, q)
  | .isFull => (.flag q.isFull, q)

/-- The index at which a member function call subscripts `queue_`, if it does:
`push` writes `queue_[tail_]` unless the queue is full, `pop` and `peek` read
`queue_[head_]` unless the queue is empty; the other calls do not touch the
array. -/
def access (q : Queue T S) : QMethod T → Option Nat
  | .push _ => if q.isFull then none else some q.tail_
  | .pop => if q.isEmpty then none else some q.head_
  | .peek => if q.isEmpty then none else some q.head_
  | .size => none
  | .isEmpty => none
  | .isFull => none

/-- Both indices address one of the `S` slots. -/
def IndexInv (q : Queue T S) : Prop :=
  q.head_ < S ∧ q.tail_ < S

instance (q : Queue T S) : Decidable q.IndexInv := by
  unfold IndexInv; infer_instance

end Queue

/-! ### The bounded list the queue is compared with -/

/-- Specification side: push appends unless the list already has `S - 1`
elements. -/
def specPush {T : Type} (S : Nat) (l : List T) (x : T) : List T :=
  if l.length = S - 1 then l else l ++ [x]

/-- Specification side: pop removes and returns the first element (the default
value when there is none). -/
def specPop {T : Type} [Inhabited T] (l : List T) : T × List T :=
  match l with
  | [] => (default, [])
  | x :: rest => (x, rest)

/-- Specification side: one call. -/
def specStep {T : Type} [Inhabited T] (S : Nat) (l : List T) : QOp T → Option T × List T
  | .push x => (none, specPush S l x)
  | .pop => (some (specPop l).1, (specPop l).2)

/-- Specification side: a sequence of calls. -/
def specRun {T : Type} [Inhabited T] (S : Nat) : List T → List (QOp T) → List T × List T
  | l, [] => ([], l)
  | l, op :: ops =>
    let r := specStep S l op
    let rest := specRun S r.2 ops
    (r.1.toList ++ rest.1, rest.2)

/-! ## DccExInterface.h / DccExInterface.cpp, configuration `CS_COM`

`CS_COM` is the configuration in which the channel's queues are
`Queue<DccMessage, MAX_QUEUE_SIZE>`; the header defines it for
`ARDUINO_AVR_MEGA2560`, a target whose `int` has 16 bits.  Conversions between
the integer types of the source are written out (`toInt`, `toU16`, `toU8`).
The members `comp`, `s`, `speed`, `init` and `blocking` take no part in any
operation embedded here and are left out of the state. -/

/-- Number of value bits of `int` on the `CS_COM` target (AVR). -/
def INT_BITS : Nat := 16

/-- Conversion of an unsigned value to a signed integer type of `bits` bits:
reduction modulo `2 ^ bits` into the range `-2 ^ (bits - 1) .. 2 ^ (bits - 1) - 1`. -/
def toInt (bits : Nat) (n : Nat) : Int :=
  if n % 2 ^ bits < 2 ^ (bits - 1) then ((n % 2 ^ bits : Nat) : Int)
  else ((n % 2 ^ bits : Nat) : Int) - ((2 ^ bits : Nat) : Int)

/-- Conversion of an `int` to `uint16_t`: reduction modulo `2 ^ 16`. -/
def toU16 (x : Int) : Nat := (x % 65536).toNat

/-- Conversion of an `int` to `uint8_t`: reduction modulo `2 ^ 8`. -/
def toU8 (x : Int) : Nat := (x % 256).toNat

/-- The values an `int` can hold. -/
def IsInt (x : Int) : Prop :=
  -((2 ^ (INT_BITS - 1) : Nat) : Int) ≤ x ∧ x < ((2 ^ (INT_BITS - 1) : Nat) : Int)

instance (x : Int) : Decidable (IsInt x) := by
  unfold IsInt; infer_instance

/-- Source: `#define MAX_MESSAGE_SIZE 128` -/
def MAX_MESSAGE_SIZE : Nat := 128

/-- Source: `#define MAX_QUEUE_SIZE 50` -/
def MAX_QUEUE_SIZE : Nat := 50

/-- Enumerator of `csProtocol`. -/
def _DCCEX : Int := 0

/-- Enumerator of `csProtocol`. -/
def _WITHROTTLE : Int := 1

/-- Enumerator of `csProtocol`. -/
def _CTRL : Int := 2

/-- Enumerator of `csProtocol`. -/
def _REPLY : Int := 3

/-- Enumerator of `csProtocol`. -/
def UNKNOWN_CS_PROTOCOL : Int := 4

/-- Enumerator of `queueType`. -/
def IN : Nat := 0

/-- Enumerator of `queueType`. -/
def OUT : Nat := 1

/-- Enumerator of `queueType`. -/
def UNKNOWN_QUEUE_TYPE : Nat := 2

/-- The struct `DccMessage`: `int mid; int client; int p; MsgPack::str_t msg;`.
The payload is text without an embedded NUL (it is read through `c_str()`). -/
structure DccMessage where
  mid : Int
  client : Int
  p : Int
  msg : String
deriving DecidableEq, Repr

/-- Source: `DccMessage()`: value-initialisation zeroes the three integers and gives
the empty text. -/
instance : Inhabited DccMessage := ⟨{ mid := 0, client := 0, p := 0, msg := "" }⟩

/-- Source: `typedef Queue<DccMessage, MAX_QUEUE_SIZE> _tDccQueue;` -/
abbrev _tDccQueue : Type := Queue DccMessage MAX_QUEUE_SIZE

/-- The state of a `DccExInterface` after `setup`: the counter `uint64_t seq`
and the two queues `incomming` and `outgoing` point to. -/
structure DccExInterface where
  seq : Nat
  incomming : _tDccQueue
  outgoing : _tDccQueue
deriving DecidableEq, Repr

/-- Source: `const uint8_t recv_index = 0x34;` -/
def recv_index : Nat := 0x34

/-- Source: `const uint8_t send_index = 0x12;` -/
def send_index : Nat := 0x12

/-- Source: `const char* csProtocolNames[5]` -/
def csProtocolNames : List String := ["DCCEX", "WTH", "CTRL", "REPLY", "UNKNOWN"]

/-- The index `decode` reads `csProtocolNames` at:
`if ((p > 4) || (p < 0)) return csProtocolNames[UNKNOWN_CS_PROTOCOL]; return csProtocolNames[p];` -/
def decodeIndex (p : Int) : Nat :=
  if p > 4 ∨ p < 0 then UNKNOWN_CS_PROTOCOL.toNat else p.toNat

/-- Source: `auto DccExInterface::decode(csProtocol p) -> const char *`; `none` would be
a read outside the table. -/
def decode (p : Int) : Option String :=
  csProtocolNames[decodeIndex p]?

/-- A backing array of `MAX_QUEUE_SIZE` slots, each holding `DccMessage()`. -/
def zeroedSlots : List DccMessage := List.replicate MAX_QUEUE_SIZE default

namespace DccExInterface

/-- The instance as constructed (`seq = 0`) and set up
(`outgoing = new _tDccQueue(); incomming = new _tDccQueue();`); `memIn` and
`memOut` are the contents of the two fresh backing arrays. -/
def setup (memIn memOut : List DccMessage) : DccExInterface :=
  { seq := 0, incomming := Queue.new memIn, outgoing := Queue.new memOut }

/-- Source: `_tDccQueue* getQueue(queueType q)`; `none` is the null pointer. -/
def getQueue (d : DccExInterface) (q : Nat) : Option _tDccQueue :=
  if q = IN then some d.incomming
  else if q = OUT then some d.outgoing
  else none

/-- The value `seq++` leaves in the `uint64_t` counter. -/
def nextSeq (seq : Nat) : Nat := (seq + 1) % 2 ^ 64

/-- The local `DccMessage m` that `queue(uint16_t c, uint8_t p, char *msg)`
fills in: `m.client = c; m.p = p; m.msg = s; m.mid = seq++;`. -/
def envelope (d : DccExInterface) (c p : Nat) (msg : String) : DccMessage :=
  { client := toInt INT_BITS (c % 2 ^ 16), p := toInt INT_BITS (p % 2 ^ 8), msg := msg,
    mid := toInt INT_BITS d.seq }

/-- Source: `void DccExInterface::queue(uint16_t c, uint8_t p, char *msg)`: builds the
envelope and ends with `outgoing->push(m)`. -/
def queue_c_p_msg (d : DccExInterface) (c p : Nat) (msg : String) : DccExInterface :=
  { d with seq := nextSeq d.seq, outgoing := d.outgoing.push (d.envelope c p msg) }

/-- The parameter `packet` after `packet.mid = seq++;`. -/
def stamp (d : DccExInterface) (packet : DccMessage) : DccMessage :=
  { packet with mid := toInt INT_BITS d.seq }

/-- Source: `void DccExInterface::queue(queueType q, DccMessage packet)`: stamps the
packet, then pushes it on the queue named by `q` when that queue is not full. -/
def queue_q_packet (d : DccExInterface) (q : Nat) (packet : DccMessage) : DccExInterface :=
  let d1 := { d with seq := nextSeq d.seq }
  if q = IN then
    if !d.incomming.isFull then { d1 with incomming := d.incomming.push (d.stamp packet) }
    else d1
  else if q = OUT then
    if !d.outgoing.isFull then { d1 with outgoing := d.outgoing.push (d.stamp packet) }
    else d1
  else d1

/-- Source: `void DccExInterface::write()`: the calls of `MsgPacketizer::send` it makes,
as pairs of index byte and message, and the state after the call. -/
def write (d : DccExInterface) : List (Nat × DccMessage) × DccExInterface :=
  if !d.outgoing.isEmpty then
    let m := d.outgoing.peek
    ([(send_index, m), (0x34, m)], { d with outgoing := d.outgoing.pop.2 })
  else ([], d)

/-- The text `sprintf(buffer, "reply from CS: %d:%d:%s", m.client, m.mid, m.msg.c_str())`
produces. -/
def replyText (m : DccMessage) : String :=
  "reply from CS: " ++ toString m.client ++ ":" ++ toString m.mid ++ ":" ++ m.msg

/-- Source: `auto DccExInterface::recieve() -> void`, branch `CS_COM`, called on
the global instance `DCCI` (the source reads the inbound queue through
`DCCI.getQueue(IN)` and enqueues the reply on `this`).  The reply is formatted
into `char buffer[MAX_MESSAGE_SIZE]`; when the text and its terminator do not
fit, `sprintf` writes past the buffer and the call has no defined result
(`none`). -/
def recieve (d : DccExInterface) : Option DccExInterface :=
  if !d.incomming.isEmpty then
    let m := d.incomming.peek
    if (replyText m).utf8ByteSize + 1 ≤ MAX_MESSAGE_SIZE then
      let d1 := d.queue_c_p_msg (toU16 m.client) (toU8 _REPLY) (replyText m)
      some { d1 with incomming := d1.incomming.pop.2 }
    else none
  else some d

/-- Source: `int size(queueType inout)`: the `size()` of the queue named by `inout`
converted to `int`, and 0 for any other value; no member is assigned, so the
state after the call is the state before it. -/
def size (d : DccExInterface) (inout : Nat) : Int × DccExInterface :=
  if inout = IN then (toInt INT_BITS d.incomming.size, d)
  else if inout = OUT then (toInt INT_BITS d.outgoing.size, d)
  else (0, d)

/-- Source: `void foofunc2(DccMessage msg)`, the callback subscribed in `setup`, acting
on the global instance: `msg` is pushed on the inbound queue unless that queue
is full. -/
def foofunc2 (d : DccExInterface) (msg : DccMessage) : DccExInterface :=
  if !d.incomming.isFull then { d with incomming := d.incomming.push msg }
  else d

/-- The first two statements of `loop()`: `write(); recieve();`.  The result is
what `write()` transmitted and the state when `recieve()` returns, before
`MsgPacketizer::update()` polls the transport. -/
def writeRecieve (d : DccExInterface) : Option (List (Nat × DccMessage) × DccExInterface) :=
  match d.write.2.recieve with
  | none => none
  | some r => some (d.write.1, r)

/-- Source: `void DccExInterface::loop()`: `write(); recieve(); MsgPacketizer::update();`.
`MsgPacketizer::update()` belongs to the framing library; `rx` is the list of
messages it decodes during this call and hands to the callback `foofunc2`, in
order of arrival. -/
def loop (d : DccExInterface) (rx : List DccMessage) :
    Option (List (Nat × DccMessage) × DccExInterface) :=
  match d.writeRecieve with
  | none => none
  | some r => some (r.1, rx.foldl foofunc2 r.2)

end DccExInterface

/-- A call of one of the two `queue` overloads. -/
inductive QueueCall where
  | c_p_msg (c p : Nat) (msg : String)
  | q_packet (q : Nat) (packet : DccMessage)
deriving DecidableEq, Repr

namespace DccExInterface

/-- The value the call writes into the `mid` field of its envelope. -/
def callMid (d : DccExInterface) : QueueCall → Int
  | .c_p_msg c p msg => (d.envelope c p msg).mid
  | .q_packet _ packet => (d.stamp packet).mid

/-- The state after the call. -/
def call (d : DccExInterface) : QueueCall → DccExInterface
  | .c_p_msg c p msg => d.queue_c_p_msg c p msg
  | .q_packet q packet => d.queue_q_packet q packet

/-- The `mid` values written by a sequence of calls, in call order. -/
def mids : DccExInterface → List QueueCall → List Int
  | _, [] => []
  | d, c :: cs => d.callMid c :: mids (d.call c) cs

/-- The state after a sequence of calls. -/
def calls : DccExInterface → List QueueCall → DccExInterface
  | d, [] => d
  | d, c :: cs => calls (d.call c) cs

end DccExInterface

/-! ## Theorems about Queue.h -/

namespace Queue

variable {T : Type} {S : Nat}

theorem succ_mod_of_lt {a : Nat} (h : a < S) :
    (a + 1) % S = if a + 1 = S then 0 else a + 1 := by
  split
  · next h1 => rw [h1, Nat.mod_self]
  · next h1 => exact Nat.mod_eq_of_lt (by omega)

theorem add_mod_of_lt {a b : Nat} (ha : a < S) (hb : b ≤ S) :
    (a + b) % S = if a + b < S then a + b else a + b - S := by
  split
  · next h1 => exact Nat.mod_eq_of_lt h1
  · next h1 =>
    rw [Nat.mod_eq_sub_mod (by omega)]
    exact Nat.mod_eq_of_lt (by omega)

theorem size_eq (q : Queue T S) (h : q.Inv) :
    q.size = if q.head_ ≤ q.tail_ then q.tail_ - q.head_ else q.tail_ + S - q.head_ := by
  obtain ⟨_, hh, ht⟩ := h
  unfold size
  split
  · next h1 =>
    have : q.tail_ + S - q.head_ = (q.tail_ - q.head_) + S := by omega
    rw [this, Nat.add_mod_right]
    exact Nat.mod_eq_of_lt (by omega)
  · next h1 => exact Nat.mod_eq_of_lt (by omega)

theorem size_lt (q : Queue T S) (h : q.Inv) : q.size < S := by
  have := size_eq q h
  obtain ⟨_, hh, ht⟩ := h
  split at this <;> omega

theorem length_toList [Inhabited T] (q : Queue T S) : q.toList.length = q.size := by
  simp [toList]

theorem isEmpty_iff (q : Queue T S) (h : q.Inv) : q.isEmpty = true ↔ q.size = 0 := by
  have hs := size_eq q h
  obtain ⟨_, hh, ht⟩ := h
  simp only [isEmpty, beq_iff_eq]
  split at hs <;> omega

theorem isFull_iff (q : Queue T S) (h : q.Inv) : q.isFull = true ↔ q.size = S - 1 := by
  have hs := size_eq q h
  obtain ⟨_, hh, ht⟩ := h
  simp only [isFull, beq_iff_eq, succ_mod_of_lt ht]
  split at hs <;> split <;> omega

theorem new_inv (mem : List T) (hm : mem.length = S) (hS : 0 < S) :
    (new mem : Queue T S).Inv :=
  ⟨hm, hS, hS⟩

theorem push_inv (q : Queue T S) (x : T) (h : q.Inv) : (q.push x).Inv := by
  obtain ⟨hl, hh, ht⟩ := h
  unfold push
  split
  · exact ⟨hl, hh, ht⟩
  · exact ⟨by simp [hl], hh, Nat.mod_lt _ (by omega)⟩

theorem pop_inv [Inhabited T] (q : Queue T S) (h : q.Inv) : q.pop.2.Inv := by
  obtain ⟨hl, hh, ht⟩ := h
  unfold pop
  split
  · exact ⟨hl, hh, ht⟩
  · exact ⟨hl, Nat.mod_lt _ (by omega), ht⟩

theorem head_add_size (q : Queue T S) (h : q.Inv) : (q.head_ + q.size) % S = q.tail_ := by
  have hs := size_eq q h
  have hlt := size_lt q h
  obtain ⟨_, hh, ht⟩ := h
  rw [add_mod_of_lt hh (Nat.le_of_lt hlt)]
  split at hs <;> split <;> omega

theorem head_add_ne_tail (q : Queue T S) (h : q.Inv) {i : Nat} (hi : i < q.size) :
    (q.head_ + i) % S ≠ q.tail_ := by
  have hs := size_eq q h
  have hlt := size_lt q h
  obtain ⟨_, hh, ht⟩ := h
  rw [add_mod_of_lt hh (by omega)]
  split at hs <;> split <;> omega

theorem size_push (q : Queue T S) (x : T) (h : q.Inv) (hf : q.isFull = false) :
    (q.push x).size = q.size + 1 := by
  have hs := size_eq q h
  have hs2 := size_eq (q.push x) (push_inv q x h)
  have hnf : ¬ q.size = S - 1 := by
    rw [← isFull_iff q h]; simp [hf]
  obtain ⟨_, hh, ht⟩ := h
  simp only [push, hf, Bool.false_eq_true, if_false, succ_mod_of_lt ht] at hs2
  simp only [push, hf, Bool.false_eq_true, if_false, succ_mod_of_lt ht]
  rw [hs2]
  split at hs <;> split <;> split <;> omega

theorem toList_push [Inhabited T] (q : Queue T S) (x : T) (h : q.Inv)
    (hf : q.isFull = false) : (q.push x).toList = q.toList ++ [x] := by
  have hsz := size_push q x h hf
  have htl := head_add_size q h
  have hl : q.queue_.length = S := h.1
  have ht : q.tail_ < S := h.2.2
  unfold toList
  rw [hsz, List.range_succ, List.map_append]
  congr 1
  · apply List.map_congr_left
    intro i hi
    have hne := head_add_ne_tail q h (List.mem_range.mp hi)
    simp only [push, hf, Bool.false_eq_true, if_false]
    rw [List.getD_eq_getElem?_getD, List.getD_eq_getElem?_getD,
      List.getElem?_set_ne (Ne.symm hne)]
  · simp only [push, hf, Bool.false_eq_true, if_false, List.map_cons, List.map_nil]
    rw [htl, List.getD_eq_getElem?_getD, List.getElem?_set_self (by omega)]
    rfl

theorem push_of_isFull (q : Queue T S) (x : T) (hf : q.isFull = true) : q.push x = q := by
  simp [push, hf]

theorem size_pop [Inhabited T] (q : Queue T S) (h : q.Inv) (he : q.isEmpty = false) :
    q.size = q.pop.2.size + 1 := by
  have hs := size_eq q h
  have hs2 := size_eq q.pop.2 (pop_inv q h)
  have hne : ¬ q.size = 0 := by
    rw [← isEmpty_iff q h]; simp [he]
  obtain ⟨_, hh, ht⟩ := h
  simp only [pop, he, Bool.false_eq_true, if_false, succ_mod_of_lt hh] at hs2
  simp only [pop, he, Bool.false_eq_true, if_false, succ_mod_of_lt hh]
  rw [hs2]
  split at hs <;> split <;> split <;> omega

theorem toList_pop [Inhabited T] (q : Queue T S) (h : q.Inv) (he : q.isEmpty = false) :
    q.toList = q.pop.1 :: q.pop.2.toList := by
  have hsz := size_pop q h he
  have hlt := size_lt q h
  have hh : q.head_ < S := h.2.1
  unfold toList
  rw [hsz, List.range_succ_eq_map, List.map_cons, List.map_map]
  congr 1
  · simp [pop, he, Nat.mod_eq_of_lt hh]
  · apply List.map_congr_left
    intro i _
    simp only [pop, he, Bool.false_eq_true, if_false, Function.comp_apply]
    congr 1
    rw [Nat.mod_add_mod]
    congr 1
    omega

theorem pop_of_isEmpty [Inhabited T] (q : Queue T S) (he : q.isEmpty = true) :
    q.pop = (default, q) := by
  simp [pop, he]

theorem toList_new [Inhabited T] (mem : List T) :
    (new mem : Queue T S).toList = [] := by
  simp [toList, new, size, Nat.mod_self]

theorem size_new (mem : List T) : (new mem : Queue T S).size = 0 := by
  simp [new, size, Nat.mod_self]

theorem pushAll_spec [Inhabited T] (xs : List T) (q : Queue T S) (h : q.Inv)
    (hroom : q.size + xs.length ≤ S - 1) :
    (q.pushAll xs).Inv ∧ (q.pushAll xs).toList = q.toList ++ xs := by
  induction xs generalizing q with
  | nil => simpa [pushAll] using h
  | cons x xs ih =>
    have hlt := size_lt q h
    simp only [List.length_cons] at hroom
    have hf : q.isFull = false := by
      cases hq : q.isFull with
      | false => rfl
      | true => have := (isFull_iff q h).mp hq; omega
    have hsz := size_push q x h hf
    have := ih (q.push x) (push_inv q x h) (by omega)
    simp only [pushAll, List.foldl_cons] at this ⊢
    rw [toList_push q x h hf] at this
    simpa using this

theorem popN_spec [Inhabited T] (k : Nat) (q : Queue T S) (h : q.Inv) (hk : k ≤ q.size) :
    (q.popN k).1 = q.toList.take k ∧ (q.popN k).2.Inv ∧
      (q.popN k).2.toList = q.toList.drop k := by
  induction k generalizing q with
  | zero => simpa [popN] using h
  | succ k ih =>
    have he : q.isEmpty = false := by
      cases hq : q.isEmpty with
      | false => rfl
      | true => have := (isEmpty_iff q h).mp hq; omega
    have hsz := size_pop q h he
    have hl := toList_pop q h he
    obtain ⟨h1, h2, h3⟩ := ih q.pop.2 (pop_inv q h) (by omega)
    simp only [popN]
    rw [hl]
    exact ⟨by simp [h1], h2, by simp [h3]⟩

theorem step_spec [Inhabited T] (q : Queue T S) (h : q.Inv) (op : QOp T) :
    (q.step op).1 = (specStep S q.toList op).1 ∧ (q.step op).2.Inv ∧
      (q.step op).2.toList = (specStep S q.toList op).2 := by
  cases op with
  | push x =>
    refine ⟨rfl, push_inv q x h, ?_⟩
    simp only [step, specStep, specPush, length_toList]
    cases hq : q.isFull with
    | true =>
      rw [push_of_isFull q x hq, if_pos ((isFull_iff q h).mp hq)]
    | false =>
      have hne : ¬ q.size = S - 1 := by
        rw [← isFull_iff q h]; simp [hq]
      rw [toList_push q x h hq, if_neg hne]
  | pop =>
    refine ⟨?_, pop_inv q h, ?_⟩
    · simp only [step, specStep]
      cases hq : q.isEmpty with
      | true =>
        have h0 : q.toList = [] := by
          apply List.eq_nil_of_length_eq_zero
          rw [length_toList]; exact (isEmpty_iff q h).mp hq
        rw [pop_of_isEmpty q hq, h0]; rfl
      | false => rw [toList_pop q h hq]; rfl
    · simp only [step, specStep]
      cases hq : q.isEmpty with
      | true =>
        have h0 : q.toList = [] := by
          apply List.eq_nil_of_length_eq_zero
          rw [length_toList]; exact (isEmpty_iff q h).mp hq
        rw [pop_of_isEmpty q hq, h0]; rfl
      | false => rw [toList_pop q h hq]; rfl

theorem run_spec [Inhabited T] (ops : List (QOp T)) (q : Queue T S) (h : q.Inv) :
    (q.run ops).1 = (specRun S q.toList ops).1 ∧ (q.run ops).2.Inv ∧
      (q.run ops).2.toList = (specRun S q.toList ops).2 := by
  induction ops generalizing q with
  | nil => exact ⟨rfl, h, rfl⟩
  | cons op ops ih =>
    obtain ⟨h1, h2, h3⟩ := step_spec q h op
    obtain ⟨i1, i2, i3⟩ := ih (q.step op).2 h2
    simp only [run, specRun]
    rw [h3] at i1 i3
    exact ⟨by rw [h1, i1], i2, i3⟩

theorem run_size [Inhabited T] (ops : List (QOp T)) (q : Queue T S) (h : q.Inv)
    (hok : q.NoFault ops) :
    (q.run ops).2.size + pops ops = q.size + pushes ops := by
  induction ops generalizing q with
  | nil => simp [run, pops, pushes]
  | cons op ops ih =>
    cases op with
    | push x =>
      obtain ⟨hf, hrest⟩ := hok
      have := ih (q.push x) (push_inv q x h) hrest
      have hsz := size_push q x h hf
      simp only [run, step, pops, pushes]
      omega
    | pop =>
      obtain ⟨he, hrest⟩ := hok
      have := ih q.pop.2 (pop_inv q h) hrest
      have hsz := size_pop q h he
      simp only [run, step, pops, pushes]
      omega

end Queue

/-! ## The claims about `Queue<T,S>` -/

/-- C1 (FIFO law): for `S ≥ 2` and a list `xs` of at most `S - 1` elements,
pushing `xs` in order onto a freshly constructed queue and then calling `pop()`
`xs.length` times returns exactly `xs`, in the order pushed. -/
theorem C1_fifo_law {T : Type} [Inhabited T] (S : Nat) (hS : 2 ≤ S) (mem xs : List T)
    (hmem : mem.length = S) (hxs : xs.length ≤ S - 1) :
    (((Queue.new mem : Queue T S).pushAll xs).popN xs.length).1 = xs := by
  have h0 : (Queue.new mem : Queue T S).Inv := Queue.new_inv mem hmem (by omega)
  obtain ⟨hinv, hl⟩ :=
    Queue.pushAll_spec xs (Queue.new mem : Queue T S) h0 (by rw [Queue.size_new]; omega)
  rw [Queue.toList_new, List.nil_append] at hl
  have hsz : ((Queue.new mem : Queue T S).pushAll xs).size = xs.length := by
    rw [← Queue.length_toList, hl]
  have := (Queue.popN_spec xs.length _ hinv (by omega)).1
  rw [this, hl, List.take_length]

theorem C1_fifo_law_witness :
    2 ≤ 4 ∧ [0, 0, 0, 0].length = 4 ∧ [10, 20, 30].length ≤ 4 - 1 ∧
      (((Queue.new [0, 0, 0, 0] : Queue Nat 4).pushAll [10, 20, 30]).popN 3).1
        = [10, 20, 30] :=
  ⟨by decide, by decide, by decide,
    C1_fifo_law 4 (by decide) [0, 0, 0, 0] [10, 20, 30] (by decide) (by decide)⟩

/-- C2 (drop-on-full): for `S ≥ 2`, after `S - 1` pushes onto an empty queue
`isFull()` is true and a further `push(x)` leaves the whole queue as it is:
head, tail, every slot of the backing array, `size()` and the stored elements,
which are still the `S - 1` elements pushed first. -/
theorem C2_drop_on_full {T : Type} [Inhabited T] (S : Nat) (hS : 2 ≤ S) (mem xs : List T)
    (hmem : mem.length = S) (hxs : xs.length = S - 1) (x : T) :
    ((Queue.new mem : Queue T S).pushAll xs).isFull = true ∧
      ((Queue.new mem : Queue T S).pushAll xs).push x = (Queue.new mem : Queue T S).pushAll xs ∧
      (((Queue.new mem : Queue T S).pushAll xs).push x).head_
        = ((Queue.new mem : Queue T S).pushAll xs).head_ ∧
      (((Queue.new mem : Queue T S).pushAll xs).push x).tail_
        = ((Queue.new mem : Queue T S).pushAll xs).tail_ ∧
      (((Queue.new mem : Queue T S).pushAll xs).push x).queue_
        = ((Queue.new mem : Queue T S).pushAll xs).queue_ ∧
      (((Queue.new mem : Queue T S).pushAll xs).push x).size = S - 1 ∧
      (((Queue.new mem : Queue T S).pushAll xs).push x).toList = xs := by
  have h0 : (Queue.new mem : Queue T S).Inv := Queue.new_inv mem hmem (by omega)
  obtain ⟨hinv, hl⟩ :=
    Queue.pushAll_spec xs (Queue.new mem : Queue T S) h0 (by rw [Queue.size_new]; omega)
  rw [Queue.toList_new, List.nil_append] at hl
  have hsz : ((Queue.new mem : Queue T S).pushAll xs).size = S - 1 := by
    rw [← Queue.length_toList, hl, hxs]
  have hfull := (Queue.isFull_iff _ hinv).mpr hsz
  have hpush := Queue.push_of_isFull _ x hfull
  refine ⟨hfull, hpush, ?_, ?_, ?_, ?_, ?_⟩
  · rw [hpush]
  · rw [hpush]
  · rw [hpush]
  · rw [hpush]; exact hsz
  · rw [hpush]; exact hl

theorem C2_drop_on_full_witness :
    ((Queue.new [0, 0, 0, 0] : Queue Nat 4).pushAll [10, 20, 30]).isFull = true ∧
      (((Queue.new [0, 0, 0, 0] : Queue Nat 4).pushAll [10, 20, 30]).push 40).toList
        = [10, 20, 30] :=
  have h := C2_drop_on_full 4 (by decide) [0, 0, 0, 0] [10, 20, 30] (by decide) (by decide) 40
  ⟨h.1, h.2.2.2.2.2.2⟩

/-- C3 (FIFO across wrap-around): for `S ≥ 2`, every sequence of `push` and
`pop` calls applied to a freshly constructed queue returns the same values as
the same calls applied to a list bounded to `S - 1` elements (push appends
unless the list has `S - 1` elements, pop removes and returns the first
element), and the stored elements, `size()`, `isEmpty()` and `isFull()` of the
resulting queue are those of the resulting list. -/
theorem C3_refines_bounded_list {T : Type} [Inhabited T] (S : Nat) (hS : 2 ≤ S)
    (mem : List T) (hmem : mem.length = S) (ops : List (QOp T)) :
    ((Queue.new mem : Queue T S).run ops).1 = (specRun S [] ops).1 ∧
      ((Queue.new mem : Queue T S).run ops).2.toList = (specRun S [] ops).2 ∧
      ((Queue.new mem : Queue T S).run ops).2.size = (specRun S [] ops).2.length ∧
      (((Queue.new mem : Queue T S).run ops).2.isEmpty = true ↔ (specRun S [] ops).2 = []) ∧
      (((Queue.new mem : Queue T S).run ops).2.isFull = true ↔
        (specRun S [] ops).2.length = S - 1) := by
  have h0 : (Queue.new mem : Queue T S).Inv := Queue.new_inv mem hmem (by omega)
  obtain ⟨h1, h2, h3⟩ := Queue.run_spec ops (Queue.new mem : Queue T S) h0
  rw [Queue.toList_new] at h1 h3
  have hlen : ((Queue.new mem : Queue T S).run ops).2.size = (specRun S [] ops).2.length := by
    rw [← h3, Queue.length_toList]
  refine ⟨h1, h3, hlen, ?_, ?_⟩
  · rw [Queue.isEmpty_iff _ h2, hlen]
    exact List.length_eq_zero
  · rw [Queue.isFull_iff _ h2, hlen]

theorem C3_refines_bounded_list_witness :
    ((Queue.new ['-', '-', '-', '-'] : Queue Char 4).run
        [.push 'A', .push 'B', .push 'C']).2.isFull = true ∧
      ((Queue.new ['-', '-', '-', '-'] : Queue Char 4).run
        [.push 'A', .push 'B', .push 'C', .push 'D']).2.size = 3 ∧
      ((Queue.new ['-', '-', '-', '-'] : Queue Char 4).run
        [.push 'A', .push 'B', .push 'C', .push 'D', .pop]).1 = ['A'] ∧
      ((Queue.new ['-', '-', '-', '-'] : Queue Char 4).run
        [.push 'A', .push 'B', .push 'C', .push 'D', .pop, .push 'D']).2.size = 3 ∧
      ((Queue.new ['-', '-', '-', '-'] : Queue Char 4).run
        [.push 'A', .push 'B', .push 'C', .push 'D', .pop, .push 'D', .pop, .pop, .pop]).1
        = ['A', 'B', 'C', 'D'] ∧
      ((Queue.new ['-', '-', '-', '-'] : Queue Char 4).run
        [.push 'A', .push 'B', .push 'C', .push 'D', .pop, .push 'D', .pop, .pop, .pop]).1
        = (specRun 4 []
          [.push 'A', .push 'B', .push 'C', .push 'D', .pop, .push 'D', .pop, .pop, .pop]).1 :=
  ⟨by decide, by decide, by decide, by decide, by decide,
    (C3_refines_bounded_list 4 (by decide) ['-', '-', '-', '-'] (by decide)
      [.push 'A', .push 'B', .push 'C', .push 'D', .pop, .push 'D', .pop, .pop, .pop]).1⟩

/-- C4 (size accounting): when a sequence of `k` pushes and `j` pops applied to
a freshly constructed queue never pushes onto a full queue and never pops from
an empty one, then `j ≤ k` and `size()` afterwards is `k - j`. -/
theorem C4_size_accounting {T : Type} [Inhabited T] (S : Nat) (hS : 0 < S) (mem : List T)
    (hmem : mem.length = S) (ops : List (QOp T))
    (hok : (Queue.new mem : Queue T S).NoFault ops) :
    Queue.pops ops ≤ Queue.pushes ops ∧
      ((Queue.new mem : Queue T S).run ops).2.size = Queue.pushes ops - Queue.pops ops := by
  have h0 : (Queue.new mem : Queue T S).Inv := Queue.new_inv mem hmem hS
  have := Queue.run_size ops (Queue.new mem : Queue T S) h0 hok
  rw [Queue.size_new] at this
  omega

theorem C4_size_accounting_witness :
    (Queue.new [0, 0, 0] : Queue Nat 3).NoFault [.push 1, .push 2, .pop, .push 3, .pop] ∧
      ((Queue.new [0, 0, 0] : Queue Nat 3).run [.push 1, .push 2, .pop, .push 3, .pop]).2.size
        = 3 - 2 :=
  ⟨by simp [Queue.NoFault, Queue.new, Queue.push, Queue.pop, Queue.isFull, Queue.isEmpty],
    (C4_size_accounting 3 (by decide) [0, 0, 0] (by decide)
      [.push 1, .push 2, .pop, .push 3, .pop]
      (by simp [Queue.NoFault, Queue.new, Queue.push, Queue.pop, Queue.isFull,
        Queue.isEmpty])).2⟩

/-! ## Theorems about the channel -/

theorem toInt_of_lt {bits n : Nat} (h : n < 2 ^ (bits - 1)) : toInt bits n = (n : Int) := by
  have hle : 2 ^ (bits - 1) ≤ 2 ^ bits := Nat.pow_le_pow_right (by decide) (Nat.sub_le _ _)
  have hmod : n % 2 ^ bits = n := Nat.mod_eq_of_lt (by omega)
  simp [toInt, hmod, h]

theorem toInt_mod_counter (n : Nat) : toInt INT_BITS (n % 2 ^ 64) = toInt INT_BITS n := by
  have h : n % 2 ^ 64 % 2 ^ INT_BITS = n % 2 ^ INT_BITS :=
    Nat.mod_mod_of_dvd n (by decide)
  simp only [toInt, h]

/-- The conversion to a signed type of `bits` bits is not monotone: the value
after the largest positive one is the most negative one. -/
theorem toInt_wraps (bits : Nat) (h : 1 ≤ bits) :
    toInt bits (2 ^ (bits - 1) - 1) = ((2 ^ (bits - 1) - 1 : Nat) : Int) ∧
      toInt bits (2 ^ (bits - 1)) = -((2 ^ (bits - 1) : Nat) : Int) := by
  obtain ⟨k, rfl⟩ : ∃ k, bits = k + 1 := ⟨bits - 1, by omega⟩
  have hpos : 0 < 2 ^ k := Nat.pow_pos (by decide)
  have hpow : 2 ^ (k + 1) = 2 * 2 ^ k := by rw [Nat.pow_succ, Nat.mul_comm]
  refine ⟨toInt_of_lt (by simp only [Nat.add_sub_cancel]; omega), ?_⟩
  have hmod : 2 ^ k % 2 ^ (k + 1) = 2 ^ k := Nat.mod_eq_of_lt (by omega)
  unfold toInt
  rw [Nat.add_sub_cancel, hmod, if_neg (lt_irrefl _), hpow]
  push_cast
  ring

namespace DccExInterface

theorem setup_inv (memIn memOut : List DccMessage) (hIn : memIn.length = MAX_QUEUE_SIZE)
    (hOut : memOut.length = MAX_QUEUE_SIZE) :
    (setup memIn memOut).incomming.Inv ∧ (setup memIn memOut).outgoing.Inv :=
  ⟨Queue.new_inv memIn hIn (by decide), Queue.new_inv memOut hOut (by decide)⟩

theorem queue_c_p_msg_inv (d : DccExInterface) (c p : Nat) (msg : String)
    (h : d.incomming.Inv ∧ d.outgoing.Inv) :
    (d.queue_c_p_msg c p msg).incomming.Inv ∧ (d.queue_c_p_msg c p msg).outgoing.Inv :=
  ⟨h.1, Queue.push_inv _ _ h.2⟩

theorem queue_q_packet_inv (d : DccExInterface) (q : Nat) (packet : DccMessage)
    (h : d.incomming.Inv ∧ d.outgoing.Inv) :
    (d.queue_q_packet q packet).incomming.Inv ∧ (d.queue_q_packet q packet).outgoing.Inv := by
  unfold queue_q_packet
  split
  · split
    · exact ⟨Queue.push_inv _ _ h.1, h.2⟩
    · exact h
  · split
    · split
      · exact ⟨h.1, Queue.push_inv _ _ h.2⟩
      · exact h
    · exact h

theorem calls_inv (cs : List QueueCall) (d : DccExInterface)
    (h : d.incomming.Inv ∧ d.outgoing.Inv) :
    (d.calls cs).incomming.Inv ∧ (d.calls cs).outgoing.Inv := by
  induction cs generalizing d with
  | nil => exact h
  | cons c cs ih =>
    cases c with
    | c_p_msg c p msg => exact ih _ (queue_c_p_msg_inv d c p msg h)
    | q_packet q packet => exact ih _ (queue_q_packet_inv d q packet h)

theorem callMid_eq (d : DccExInterface) (c : QueueCall) :
    d.callMid c = toInt INT_BITS d.seq := by
  cases c <;> rfl

theorem call_seq (d : DccExInterface) (c : QueueCall) : (d.call c).seq = nextSeq d.seq := by
  cases c with
  | c_p_msg c p msg => rfl
  | q_packet q packet =>
    simp only [call, queue_q_packet]
    split
    · split <;> rfl
    · split
      · split <;> rfl
      · rfl

theorem mids_eq (cs : List QueueCall) (d : DccExInterface) :
    d.mids cs =
      (List.range cs.length).map (fun k => toInt INT_BITS ((d.seq + k) % 2 ^ 64)) := by
  induction cs generalizing d with
  | nil => rfl
  | cons c cs ih =>
    rw [mids, ih, List.length_cons, List.range_succ_eq_map, List.map_cons, List.map_map,
      callMid_eq, call_seq, Nat.add_zero, toInt_mod_counter]
    congr 1
    apply List.map_congr_left
    intro k _
    simp only [Function.comp_apply, nextSeq]
    congr 1
    omega

theorem length_mids (cs : List QueueCall) (d : DccExInterface) :
    (d.mids cs).length = cs.length := by
  simp [mids_eq]

end DccExInterface

/-- C5, as the code has it: on an instance whose counter is at its initial
value 0, the `k`-th call of either `queue` overload (counting from 0) writes
`k` into `mid` as long as `k` is representable in `int`; so for every
interleaving of at most `2 ^ (INT_BITS - 1)` calls the `mid` values are
`0, 1, 2, ...`: strictly increasing, without repeats, starting at 0. -/
theorem C5_mids_increasing_while_int_holds (d : DccExInterface) (cs : List QueueCall)
    (h0 : d.seq = 0) (hlen : cs.length ≤ 2 ^ (INT_BITS - 1)) :
    d.mids cs = (List.range cs.length).map (fun (k : Nat) => (k : Int)) ∧
      (d.mids cs).Pairwise (fun a b => a < b) ∧ (d.mids cs).Nodup ∧
      (cs ≠ [] → (d.mids cs).head? = some 0) := by
  have hm : d.mids cs = (List.range cs.length).map (fun (k : Nat) => (k : Int)) := by
    rw [DccExInterface.mids_eq, h0]
    apply List.map_congr_left
    intro k hk
    have hk1 : k < 2 ^ (INT_BITS - 1) := lt_of_lt_of_le (List.mem_range.mp hk) hlen
    have hk2 : k < 2 ^ 64 := lt_of_lt_of_le hk1 (by decide)
    rw [Nat.zero_add, Nat.mod_eq_of_lt hk2, toInt_of_lt hk1]
  have hp : (d.mids cs).Pairwise (fun a b => a < b) := by
    rw [hm]
    exact (List.pairwise_lt_range cs.length).map _ (fun _ _ hab => Int.ofNat_lt.mpr hab)
  refine ⟨hm, hp, ?_, ?_⟩
  · exact hp.imp (fun hab => ne_of_lt hab)
  · intro hne
    rw [hm]
    cases cs with
    | nil => exact absurd rfl hne
    | cons c cs => simp [List.range_succ_eq_map]

theorem C5_mids_increasing_while_int_holds_witness :
    (DccExInterface.setup zeroedSlots zeroedSlots).mids
        [.c_p_msg 7 0 "<t 1 5>", .q_packet IN default, .c_p_msg 1 3 ""] = [0, 1, 2] :=
  (C5_mids_increasing_while_int_holds (DccExInterface.setup zeroedSlots zeroedSlots)
    [.c_p_msg 7 0 "<t 1 5>", .q_packet IN default, .c_p_msg 1 3 ""] rfl (by decide)).1

/-- C5 as stated fails: `mid` is an `int`, and 32769 calls of
`queue(0, 0, "")` on a fresh instance do not write a strictly increasing
sequence; the call after the one that wrote 32767 writes -32768. -/
theorem C5_counterexample :
    ¬ ((DccExInterface.setup (List.replicate 50 default) (List.replicate 50 default)).mids
        (List.replicate 32769 (QueueCall.c_p_msg 0 0 ""))).Pairwise (fun a b => a < b) := by
  intro h
  rw [DccExInterface.mids_eq, List.length_replicate] at h
  have h2 := List.pairwise_iff_getElem.mp h 32767 32768 (by simp) (by simp) (by decide)
  simp only [List.getElem_map, List.getElem_range, DccExInterface.setup, Nat.zero_add] at h2
  revert h2
  decide

namespace Queue

variable {T : Type} {S : Nat}

theorem peek_eq_pop [Inhabited T] (q : Queue T S) : q.peek = q.pop.1 := by
  unfold peek pop
  split <;> rfl

theorem isEmpty_iff_toList [Inhabited T] (q : Queue T S) (h : q.Inv) :
    q.isEmpty = true ↔ q.toList = [] := by
  rw [isEmpty_iff q h, ← length_toList]
  exact List.length_eq_zero

theorem pop_of_toList_cons [Inhabited T] (q : Queue T S) (h : q.Inv) {x : T} {xs : List T}
    (hl : q.toList = x :: xs) : q.pop.1 = x ∧ q.pop.2.toList = xs := by
  have he : q.isEmpty = false := by
    cases hq : q.isEmpty with
    | false => rfl
    | true => rw [(isEmpty_iff_toList q h).mp hq] at hl; cases hl
  have := toList_pop q h he
  rw [hl] at this
  injection this with h1 h2
  exact ⟨h1.symm, h2.symm⟩

theorem isEmpty_eq_false_of_isFull (q : Queue T S) (h : q.Inv) (hS : 2 ≤ S) (hf : q.isFull = true) :
    q.isEmpty = false := by
  have h1 := (isFull_iff q h).mp hf
  cases hq : q.isEmpty with
  | false => rfl
  | true => have := (isEmpty_iff q h).mp hq; omega

end Queue

theorem toInt_toU16 {x : Int} (h : IsInt x) : toInt INT_BITS (toU16 x % 2 ^ 16) = x := by
  obtain ⟨h1, h2⟩ := h
  simp only [INT_BITS, Nat.reduceSub, Nat.reducePow, Nat.cast_ofNat] at h1 h2
  simp only [toInt, toU16, INT_BITS, Nat.reduceSub, Nat.reducePow, Nat.cast_ofNat]
  split <;> omega

theorem toInt_u8 (p : Nat) : toInt INT_BITS (p % 2 ^ 8) = ((p % 256 : Nat) : Int) := by
  simp only [toInt, INT_BITS, Nat.reduceSub, Nat.reducePow]
  split <;> omega

theorem toInt_u16_of_lt {c : Nat} (h : c < 2 ^ (INT_BITS - 1)) :
    toInt INT_BITS (c % 2 ^ 16) = (c : Int) := by
  simp only [INT_BITS, Nat.reduceSub, Nat.reducePow] at h
  simp only [toInt, INT_BITS, Nat.reduceSub, Nat.reducePow]
  split <;> omega

namespace DccExInterface

theorem calls_replicate_dropped (packet : DccMessage) (n : Nat) (d : DccExInterface)
    (hd : d.seq + n < 2 ^ 64) :
    d.calls (List.replicate n (.q_packet UNKNOWN_QUEUE_TYPE packet))
      = { d with seq := d.seq + n } := by
  induction n generalizing d with
  | zero => rfl
  | succ n ih =>
    have h1 : ¬ UNKNOWN_QUEUE_TYPE = IN := by decide
    have h2 : ¬ UNKNOWN_QUEUE_TYPE = OUT := by decide
    have hs : nextSeq d.seq = d.seq + 1 := Nat.mod_eq_of_lt (by omega)
    have hc : d.call (.q_packet UNKNOWN_QUEUE_TYPE packet) = { d with seq := d.seq + 1 } := by
      simp only [call, queue_q_packet, if_neg h1, if_neg h2, hs]
    rw [List.replicate_succ, calls, hc, ih _ (by simp only; omega)]
    simp only [Nat.add_assoc, Nat.add_comm 1 n]

end DccExInterface

theorem Queue.isFull_eq_false_of_isEmpty {T : Type} {S : Nat} (q : Queue T S) (h : q.Inv)
    (hS : 2 ≤ S) (he : q.isEmpty = true) : q.isFull = false := by
  have h0 := (Queue.isEmpty_iff q h).mp he
  cases hq : q.isFull with
  | false => rfl
  | true => have := (Queue.isFull_iff q h).mp hq; omega

/-! ## The claims about the channel -/

/-- C6, as the code has it: `queue(q, packet)` with `q` one of `IN`, `OUT` and
the selected queue not full appends exactly one element at the tail of the
selected queue and leaves the other queue as it is; the element is `packet`
with `client`, `p` and `msg` unchanged and `mid` overwritten by the counter
value converted to `int`, which is the counter value itself as long as that is
below `2 ^ (INT_BITS - 1)`. -/
theorem C6_queue_appends_stamped (d : DccExInterface) (q : Nat) (packet : DccMessage)
    (hin : d.incomming.Inv) (hout : d.outgoing.Inv)
    (hq : (q = IN ∧ d.incomming.isFull = false) ∨ (q = OUT ∧ d.outgoing.isFull = false)) :
    (q = IN →
        (d.queue_q_packet q packet).incomming.toList
          = d.incomming.toList ++ [{ packet with mid := toInt INT_BITS d.seq }] ∧
        (d.queue_q_packet q packet).outgoing = d.outgoing) ∧
      (q = OUT →
        (d.queue_q_packet q packet).outgoing.toList
          = d.outgoing.toList ++ [{ packet with mid := toInt INT_BITS d.seq }] ∧
        (d.queue_q_packet q packet).incomming = d.incomming) ∧
      (d.seq < 2 ^ (INT_BITS - 1) → toInt INT_BITS d.seq = (d.seq : Int)) := by
  have hne : ¬ OUT = IN := by decide
  refine ⟨?_, ?_, fun h => toInt_of_lt h⟩
  · intro h
    subst h
    rcases hq with ⟨_, hf⟩ | ⟨h1, _⟩
    · simp only [DccExInterface.queue_q_packet, hf, if_true, Bool.not_false]
      exact ⟨Queue.toList_push _ _ hin hf, trivial⟩
    · exact absurd h1.symm hne
  · intro h
    subst h
    rcases hq with ⟨h1, _⟩ | ⟨_, hf⟩
    · exact absurd h1 hne
    · simp only [DccExInterface.queue_q_packet, hf, if_true, Bool.not_false, if_neg hne]
      exact ⟨Queue.toList_push _ _ hout hf, trivial⟩

theorem C6_queue_appends_stamped_witness :
    ((DccExInterface.setup zeroedSlots zeroedSlots).queue_q_packet OUT
        { mid := 77, client := 7, p := 0, msg := "<t 1 5>" }).outgoing.toList
      = [{ mid := 0, client := 7, p := 0, msg := "<t 1 5>" }] :=
  ((C6_queue_appends_stamped (DccExInterface.setup zeroedSlots zeroedSlots) OUT
    { mid := 77, client := 7, p := 0, msg := "<t 1 5>" } (by decide) (by decide)
    (Or.inr ⟨rfl, by decide⟩)).2.1 rfl).1

/-- C6 as stated fails: 32768 calls of `queue(UNKNOWN_QUEUE_TYPE, packet)` on a
fresh instance leave both queues empty and the counter at 32768; the next
`queue(IN, packet)` stores the packet with `mid = -32768`, not with the counter
value 32768. -/
theorem C6_counterexample :
    (DccExInterface.setup zeroedSlots zeroedSlots).calls
        (List.replicate 32768 (.q_packet UNKNOWN_QUEUE_TYPE default))
      = { seq := 32768, incomming := Queue.new zeroedSlots, outgoing := Queue.new zeroedSlots } ∧
    (Queue.new zeroedSlots : _tDccQueue).isFull = false ∧
    (DccExInterface.queue_q_packet
        { seq := 32768, incomming := Queue.new zeroedSlots, outgoing := Queue.new zeroedSlots }
        IN { mid := 77, client := 7, p := 0, msg := "<t 1 5>" }).incomming.toList
      = [{ mid := -32768, client := 7, p := 0, msg := "<t 1 5>" }] ∧
    (DccExInterface.queue_q_packet
        { seq := 32768, incomming := Queue.new zeroedSlots, outgoing := Queue.new zeroedSlots }
        IN { mid := 77, client := 7, p := 0, msg := "<t 1 5>" }).incomming.toList
      ≠ (Queue.new zeroedSlots : _tDccQueue).toList
          ++ [{ mid := 32768, client := 7, p := 0, msg := "<t 1 5>" }] := by
  refine ⟨?_, by decide, by decide, by decide⟩
  rw [DccExInterface.calls_replicate_dropped default 32768 _ (by decide)]
  rfl

/-- C7: `queue(q, packet)` drops without touching the queues: when the queue
selected by `q` is full, or `q` is neither `IN` nor `OUT`, the inbound and the
outbound queue (head, tail and every slot) are as before the call. -/
theorem C7_queue_drop_keeps_queues (d : DccExInterface) (q : Nat) (packet : DccMessage)
    (h : (q = IN ∧ d.incomming.isFull = true) ∨ (q = OUT ∧ d.outgoing.isFull = true) ∨
      (q ≠ IN ∧ q ≠ OUT)) :
    (d.queue_q_packet q packet).incomming = d.incomming ∧
      (d.queue_q_packet q packet).outgoing = d.outgoing := by
  rcases h with ⟨hq, hf⟩ | ⟨hq, hf⟩ | ⟨h1, h2⟩
  · subst hq
    simp [DccExInterface.queue_q_packet, hf]
  · subst hq
    have : ¬ OUT = IN := by decide
    simp [DccExInterface.queue_q_packet, hf, this]
  · simp [DccExInterface.queue_q_packet, h1, h2]

theorem C7_queue_drop_keeps_queues_witness :
    ((DccExInterface.setup zeroedSlots zeroedSlots).queue_q_packet UNKNOWN_QUEUE_TYPE
        { mid := 9, client := 3, p := 0, msg := "<1 THROW>" }).incomming
        = (DccExInterface.setup zeroedSlots zeroedSlots).incomming ∧
      ((DccExInterface.setup zeroedSlots zeroedSlots).queue_q_packet UNKNOWN_QUEUE_TYPE
        { mid := 9, client := 3, p := 0, msg := "<1 THROW>" }).outgoing
        = (DccExInterface.setup zeroedSlots zeroedSlots).outgoing :=
  C7_queue_drop_keeps_queues (DccExInterface.setup zeroedSlots zeroedSlots) UNKNOWN_QUEUE_TYPE
    { mid := 9, client := 3, p := 0, msg := "<1 THROW>" }
    (Or.inr (Or.inr ⟨by decide, by decide⟩))

/-- C8, as the code has it: for every client id `c` that the `int` field
`client` can hold (`c < 2 ^ (INT_BITS - 1)`), every protocol tag `p` and every
payload `msg`, starting from an empty outbound queue, `queue(c, p, msg)`
followed by `write()` hands exactly one envelope to the transport (once under
each of the two index bytes), that envelope has `client = c`, `p = p` and the
original payload, and the outbound queue is empty afterwards. -/
theorem C8_enqueue_then_drain (d : DccExInterface) (c p : Nat) (msg : String)
    (hout : d.outgoing.Inv) (hempty : d.outgoing.isEmpty = true)
    (hc : c < 2 ^ (INT_BITS - 1)) (hp : p < 2 ^ 8) :
    (d.queue_c_p_msg c p msg).write.1
        = [(send_index, { mid := toInt INT_BITS d.seq, client := c, p := p, msg := msg }),
           (0x34, { mid := toInt INT_BITS d.seq, client := c, p := p, msg := msg })] ∧
      (∀ t ∈ (d.queue_c_p_msg c p msg).write.1,
        t.2.client = (c : Int) ∧ t.2.p = (p : Int) ∧ t.2.msg = msg) ∧
      (d.queue_c_p_msg c p msg).write.2.outgoing.isEmpty = true ∧
      (d.queue_c_p_msg c p msg).write.2.outgoing.toList = [] := by
  have hS : 2 ≤ MAX_QUEUE_SIZE := by decide
  have hf := Queue.isFull_eq_false_of_isEmpty d.outgoing hout hS hempty
  have he : d.envelope c p msg
      = { mid := toInt INT_BITS d.seq, client := c, p := p, msg := msg } := by
    simp only [DccExInterface.envelope, toInt_u16_of_lt hc, toInt_u8,
      Nat.mod_eq_of_lt (show p < 256 from hp)]
  have hinv1 := Queue.push_inv d.outgoing (d.envelope c p msg) hout
  have hl := Queue.toList_push d.outgoing (d.envelope c p msg) hout hf
  rw [(Queue.isEmpty_iff_toList d.outgoing hout).mp hempty, List.nil_append, he] at hl
  rw [he] at hinv1
  obtain ⟨hp1, hp2⟩ := Queue.pop_of_toList_cons _ hinv1 hl
  have hne : (d.outgoing.push
      { mid := toInt INT_BITS d.seq, client := c, p := p, msg := msg }).isEmpty = false := by
    cases hq : (d.outgoing.push
      { mid := toInt INT_BITS d.seq, client := c, p := p, msg := msg }).isEmpty with
    | false => rfl
    | true => rw [(Queue.isEmpty_iff_toList _ hinv1).mp hq] at hl; cases hl
  have hw : (d.queue_c_p_msg c p msg).write.1
      = [(send_index, { mid := toInt INT_BITS d.seq, client := c, p := p, msg := msg }),
         (0x34, { mid := toInt INT_BITS d.seq, client := c, p := p, msg := msg })] := by
    simp only [DccExInterface.write, DccExInterface.queue_c_p_msg, he, hne, Bool.not_false,
      if_true, Queue.peek_eq_pop, hp1]
  have hw2 : (d.queue_c_p_msg c p msg).write.2.outgoing
      = (d.outgoing.push
          { mid := toInt INT_BITS d.seq, client := c, p := p, msg := msg }).pop.2 := by
    simp only [DccExInterface.write, DccExInterface.queue_c_p_msg, he, hne, Bool.not_false,
      if_true]
  refine ⟨hw, ?_, ?_, ?_⟩
  · intro t ht
    rw [hw] at ht
    simp only [List.mem_cons, List.mem_singleton, List.not_mem_nil, or_false] at ht
    rcases ht with h | h <;> subst h <;> exact ⟨rfl, rfl, rfl⟩
  · rw [hw2, Queue.isEmpty_iff_toList _ (Queue.pop_inv _ hinv1)]
    exact hp2
  · rw [hw2]; exact hp2

theorem C8_enqueue_then_drain_witness :
    ((DccExInterface.setup zeroedSlots zeroedSlots).queue_c_p_msg 7 0 "<t 1 5>").write.1
        = [(send_index, { mid := 0, client := 7, p := _DCCEX, msg := "<t 1 5>" }),
           (0x34, { mid := 0, client := 7, p := _DCCEX, msg := "<t 1 5>" })] ∧
      ((DccExInterface.setup zeroedSlots zeroedSlots).queue_c_p_msg 7 0
        "<t 1 5>").write.2.outgoing.isEmpty = true :=
  have h := C8_enqueue_then_drain (DccExInterface.setup zeroedSlots zeroedSlots) 7 0 "<t 1 5>"
    (by decide) (by decide) (by decide) (by decide)
  ⟨h.1, h.2.2.1⟩

/-- C8 as stated fails for a client id the `int` field cannot hold: after
`queue(40000, _DCCEX, "<t 1 5>")` on a fresh instance, `write()` hands over an
envelope whose `client` is -25536, not 40000. -/
theorem C8_counterexample :
    ((DccExInterface.setup zeroedSlots zeroedSlots).queue_c_p_msg 40000 0 "<t 1 5>").write.1
        = [(send_index, { mid := 0, client := -25536, p := 0, msg := "<t 1 5>" }),
           (0x34, { mid := 0, client := -25536, p := 0, msg := "<t 1 5>" })] ∧
      ∀ t ∈ ((DccExInterface.setup zeroedSlots zeroedSlots).queue_c_p_msg 40000 0
          "<t 1 5>").write.1, t.2.client ≠ 40000 := by
  decide

/-- C9, as the code has it: in a state whose inbound queue is non-empty with
front envelope `m`, whose outbound queue is not full, and where the reply text
with its terminator fits the `MAX_MESSAGE_SIZE` bytes of `buffer`, `recieve()`
appends exactly one envelope to the outbound queue, tagged `_REPLY`, with
`client = m.client` and payload "reply from CS: <m.client>:<m.mid>:<m.msg>",
and removes exactly `m` from the inbound queue. -/
theorem C9_recieve_builds_one_reply (d : DccExInterface) (m : DccMessage)
    (rest : List DccMessage) (hin : d.incomming.Inv) (hout : d.outgoing.Inv)
    (hfront : d.incomming.toList = m :: rest) (hclient : IsInt m.client)
    (hroom : d.outgoing.isFull = false)
    (hfit : ("reply from CS: " ++ toString m.client ++ ":" ++ toString m.mid ++ ":"
      ++ m.msg).utf8ByteSize + 1 ≤ MAX_MESSAGE_SIZE) :
    ∃ r, d.recieve = some r ∧
      r.outgoing.toList = d.outgoing.toList ++
        [{ mid := toInt INT_BITS d.seq, client := m.client, p := _REPLY,
           msg := "reply from CS: " ++ toString m.client ++ ":" ++ toString m.mid ++ ":"
             ++ m.msg }] ∧
      r.incomming.toList = rest := by
  obtain ⟨hp1, hp2⟩ := Queue.pop_of_toList_cons d.incomming hin hfront
  have hne : d.incomming.isEmpty = false := by
    cases hq : d.incomming.isEmpty with
    | false => rfl
    | true => rw [(Queue.isEmpty_iff_toList _ hin).mp hq] at hfront; cases hfront
  have hpeek : d.incomming.peek = m := by rw [Queue.peek_eq_pop, hp1]
  have hrep : toInt INT_BITS (toU8 _REPLY % 2 ^ 8) = _REPLY := by decide
  have henv : d.envelope (toU16 m.client) (toU8 _REPLY) (DccExInterface.replyText m)
      = { mid := toInt INT_BITS d.seq, client := m.client, p := _REPLY,
          msg := "reply from CS: " ++ toString m.client ++ ":" ++ toString m.mid ++ ":"
            ++ m.msg } := by
    simp only [DccExInterface.envelope, toInt_toU16 hclient, hrep, DccExInterface.replyText]
  have hrec : d.recieve = some
      { seq := DccExInterface.nextSeq d.seq, incomming := d.incomming.pop.2,
        outgoing := d.outgoing.push
          (d.envelope (toU16 m.client) (toU8 _REPLY) (DccExInterface.replyText m)) } := by
    have hfit2 : (DccExInterface.replyText m).utf8ByteSize + 1 ≤ MAX_MESSAGE_SIZE := hfit
    simp only [DccExInterface.recieve, hne, Bool.not_false, if_true, hpeek, if_pos hfit2,
      DccExInterface.queue_c_p_msg]
  refine ⟨_, hrec, ?_, hp2⟩
  simp only []
  rw [Queue.toList_push _ _ hout hroom, henv]

theorem C9_recieve_builds_one_reply_witness :
    ∃ r, DccExInterface.recieve
        { seq := 10,
          incomming := Queue.push (Queue.new zeroedSlots)
            { mid := 9, client := 3, p := 0, msg := "<1 THROW>" },
          outgoing := Queue.new zeroedSlots } = some r ∧
      r.outgoing.toList
        = [{ mid := 10, client := 3, p := _REPLY, msg := "reply from CS: 3:9:<1 THROW>" }] ∧
      r.incomming.toList = [] :=
  C9_recieve_builds_one_reply
    { seq := 10,
      incomming := Queue.push (Queue.new zeroedSlots)
        { mid := 9, client := 3, p := 0, msg := "<1 THROW>" },
      outgoing := Queue.new zeroedSlots }
    { mid := 9, client := 3, p := 0, msg := "<1 THROW>" } [] (by decide) (by decide)
    (by decide) (by decide) (by decide) (by decide)

set_option maxRecDepth 1000000 in
/-- C9 as stated fails when the outbound queue is full: after 49 calls of
`queue(0, 0, "")` and one `queue(IN, packet)` on a fresh instance the inbound
queue holds one envelope and the outbound queue is full; `recieve()` removes the
inbound envelope and leaves the outbound queue as it was, so no reply is
enqueued.  It also fails when the reply does not fit `buffer`: with an inbound
payload of 120 characters the formatted text needs more than
`MAX_MESSAGE_SIZE` bytes and the call has no defined result. -/
theorem C9_counterexample :
    ((DccExInterface.setup zeroedSlots zeroedSlots).calls
        (List.replicate 49 (.c_p_msg 0 0 "") ++
          [.q_packet IN { mid := 9, client := 3, p := 0, msg := "<1 THROW>" }])).incomming.toList
      = [{ mid := 49, client := 3, p := 0, msg := "<1 THROW>" }] ∧
    ((DccExInterface.setup zeroedSlots zeroedSlots).calls
        (List.replicate 49 (.c_p_msg 0 0 "") ++
          [.q_packet IN { mid := 9, client := 3, p := 0, msg := "<1 THROW>" }])).outgoing.isFull
      = true ∧
    (DccExInterface.recieve ((DccExInterface.setup zeroedSlots zeroedSlots).calls
        (List.replicate 49 (.c_p_msg 0 0 "") ++
          [.q_packet IN { mid := 9, client := 3, p := 0, msg := "<1 THROW>" }]))).map
        (fun r => (r.outgoing, r.incomming.toList))
      = some (((DccExInterface.setup zeroedSlots zeroedSlots).calls
        (List.replicate 49 (.c_p_msg 0 0 "") ++
          [.q_packet IN { mid := 9, client := 3, p := 0, msg := "<1 THROW>" }])).outgoing, []) ∧
    DccExInterface.recieve ((DccExInterface.setup zeroedSlots zeroedSlots).calls
        [.q_packet IN { mid := 9, client := 3, p := 0,
                        msg := String.mk (List.replicate 120 'x') }]) = none := by
  decide

/-- C10: `decode` maps the tags 0, 1, 2, 3 to "DCCEX", "WTH", "CTRL", "REPLY",
maps every tag outside that range (99 and -1 among them) to "UNKNOWN", and for
every input reads the table at an index below 5 and returns one of its five
names. -/
theorem C10_decode_total :
    decode _DCCEX = some "DCCEX" ∧ decode _WITHROTTLE = some "WTH" ∧
      decode _CTRL = some "CTRL" ∧ decode _REPLY = some "REPLY" ∧
      decode 99 = some "UNKNOWN" ∧ decode (-1) = some "UNKNOWN" ∧
      ∀ p : Int, ((p < 0 ∨ 3 < p) → decode p = some "UNKNOWN") ∧
        decodeIndex p < csProtocolNames.length ∧ csProtocolNames.length = 5 ∧
        ∃ name, name ∈ csProtocolNames ∧ decode p = some name := by
  refine ⟨by decide, by decide, by decide, by decide, by decide, by decide, ?_⟩
  intro p
  by_cases hp : p > 4 ∨ p < 0
  · have hi : decodeIndex p = 4 := by
      unfold decodeIndex
      rw [if_pos hp]; rfl
    have hd : decode p = some "UNKNOWN" := by
      unfold decode
      rw [hi]; rfl
    exact ⟨fun _ => hd, by rw [hi]; decide, rfl, "UNKNOWN", by decide, hd⟩
  · have hcases : p = 0 ∨ p = 1 ∨ p = 2 ∨ p = 3 ∨ p = 4 := by omega
    rcases hcases with h | h | h | h | h <;> subst h
    · exact ⟨fun h => by omega, by decide, rfl, "DCCEX", by decide, by decide⟩
    · exact ⟨fun h => by omega, by decide, rfl, "WTH", by decide, by decide⟩
    · exact ⟨fun h => by omega, by decide, rfl, "CTRL", by decide, by decide⟩
    · exact ⟨fun h => by omega, by decide, rfl, "REPLY", by decide, by decide⟩
    · exact ⟨fun _ => by decide, by decide, rfl, "UNKNOWN", by decide, by decide⟩

/-! ## Capacity, draining and the read-only members -/

theorem Queue.pushAll_take {T : Type} {S : Nat} [Inhabited T] (xs : List T) (q : Queue T S)
    (h : q.Inv) :
    (q.pushAll xs).Inv ∧ (q.pushAll xs).toList = (q.toList ++ xs).take (S - 1) := by
  induction xs generalizing q with
  | nil =>
    refine ⟨h, ?_⟩
    have hlt := Queue.size_lt q h
    simp only [Queue.pushAll, List.foldl_nil, List.append_nil]
    rw [List.take_of_length_le (by rw [Queue.length_toList]; omega)]
  | cons x xs ih =>
    simp only [Queue.pushAll, List.foldl_cons]
    cases hq : q.isFull with
    | true =>
      have hlen : S - 1 ≤ q.toList.length := by
        rw [Queue.length_toList, (Queue.isFull_iff q h).mp hq]
      have := ih q h
      simp only [Queue.pushAll] at this
      rw [Queue.push_of_isFull q x hq]
      refine ⟨this.1, ?_⟩
      rw [this.2, List.take_append_of_le_length hlen, List.take_append_of_le_length hlen]
    | false =>
      have := ih (q.push x) (Queue.push_inv q x h)
      simp only [Queue.pushAll] at this
      refine ⟨this.1, ?_⟩
      rw [this.2, Queue.toList_push q x h hq, List.append_assoc, List.singleton_append]

/-- C11, as the code has it: a channel queue `Queue<DccMessage, MAX_QUEUE_SIZE>`
with `MAX_QUEUE_SIZE = 50` has 49 usable slots.  Starting from an empty queue,
49 consecutive pushes are all stored and `size()` is 49 afterwards; the queue
is then full and the 50th push is dropped. -/
theorem C11_channel_queue_holds_49 (mem xs : List DccMessage) (x : DccMessage)
    (hmem : mem.length = MAX_QUEUE_SIZE) (hxs : xs.length = 49) :
    ((Queue.new mem : _tDccQueue).pushAll xs).toList = xs ∧
      ((Queue.new mem : _tDccQueue).pushAll xs).size = 49 ∧
      ((Queue.new mem : _tDccQueue).pushAll xs).isFull = true ∧
      (Queue.new mem : _tDccQueue).pushAll (xs ++ [x])
        = (Queue.new mem : _tDccQueue).pushAll xs := by
  have h0 : (Queue.new mem : _tDccQueue).Inv := Queue.new_inv mem hmem (by decide)
  obtain ⟨hinv, hl⟩ := Queue.pushAll_take xs (Queue.new mem : _tDccQueue) h0
  have h49 : MAX_QUEUE_SIZE - 1 = 49 := by decide
  rw [Queue.toList_new, List.nil_append, h49, List.take_of_length_le (by omega)] at hl
  have hsz : ((Queue.new mem : _tDccQueue).pushAll xs).size = 49 := by
    rw [← Queue.length_toList, hl, hxs]
  have hfull : ((Queue.new mem : _tDccQueue).pushAll xs).isFull = true :=
    (Queue.isFull_iff _ hinv).mpr (by rw [hsz, h49])
  refine ⟨hl, hsz, hfull, ?_⟩
  simp only [Queue.pushAll, List.foldl_append, List.foldl_cons, List.foldl_nil]
  exact Queue.push_of_isFull _ x hfull

set_option maxRecDepth 1000000 in
theorem C11_channel_queue_holds_49_witness :
    ((Queue.new zeroedSlots : _tDccQueue).pushAll
        (List.replicate 49 { mid := 1, client := 7, p := 0, msg := "<t 1 5>" })).size = 49 ∧
      ((Queue.new zeroedSlots : _tDccQueue).pushAll
        (List.replicate 49 { mid := 1, client := 7, p := 0, msg := "<t 1 5>" })).isFull = true :=
  have h := C11_channel_queue_holds_49 zeroedSlots
    (List.replicate 49 { mid := 1, client := 7, p := 0, msg := "<t 1 5>" }) default
    (by decide) (by decide)
  ⟨h.2.1, h.2.2.1⟩

set_option maxRecDepth 1000000 in
/-- C11 as stated fails: of 50 consecutive pushes onto an empty channel queue
only 49 are stored, and `size()` is 49, not 50.  The same on the channel: after
50 calls of `queue(0, 0, "")` on a fresh instance the outbound queue holds the
envelopes with `mid` 0 to 48; the 50th envelope is not stored. -/
theorem C11_counterexample :
    ((Queue.new zeroedSlots : _tDccQueue).pushAll
        (List.replicate 50 { mid := 1, client := 7, p := 0, msg := "<t 1 5>" })).size = 49 ∧
      ((Queue.new zeroedSlots : _tDccQueue).pushAll
        (List.replicate 50 { mid := 1, client := 7, p := 0, msg := "<t 1 5>" })).size ≠ 50 ∧
      ((DccExInterface.setup zeroedSlots zeroedSlots).calls
        (List.replicate 50 (.c_p_msg 0 0 ""))).outgoing.size = 49 ∧
      (((DccExInterface.setup zeroedSlots zeroedSlots).calls
        (List.replicate 50 (.c_p_msg 0 0 ""))).outgoing.toList.map (fun m => m.mid))
        = (List.range 49).map (fun (k : Nat) => (k : Int)) := by
  decide

/-- C12: `write()` drains at most one envelope.  When the outbound queue holds
`m` followed by `rest`, `write()` calls `MsgPacketizer::send` with `m` twice,
first under `send_index = 0x12`, then under `0x34`, and leaves `rest` in the
queue, in order, so `size()` drops by exactly 1; when the outbound queue is
empty it transmits nothing and changes nothing.  In both cases the inbound
queue and the counter are unchanged. -/
theorem C12_write_drains_one (d : DccExInterface) (hout : d.outgoing.Inv) :
    (∀ m rest, d.outgoing.toList = m :: rest →
        d.write.1 = [(send_index, m), (0x34, m)] ∧ send_index = 0x12 ∧
        d.write.2.outgoing.toList = rest ∧
        d.write.2.outgoing.size + 1 = d.outgoing.size) ∧
      (d.outgoing.isEmpty = true → d.write.1 = [] ∧ d.write.2 = d) ∧
      d.write.2.incomming = d.incomming ∧ d.write.2.seq = d.seq := by
  refine ⟨?_, ?_, ?_, ?_⟩
  · intro m rest hl
    obtain ⟨hp1, hp2⟩ := Queue.pop_of_toList_cons d.outgoing hout hl
    have hne : d.outgoing.isEmpty = false := by
      cases hq : d.outgoing.isEmpty with
      | false => rfl
      | true => rw [(Queue.isEmpty_iff_toList _ hout).mp hq] at hl; cases hl
    have hsz := Queue.size_pop d.outgoing hout hne
    simp only [DccExInterface.write, hne, Bool.not_false, if_true, Queue.peek_eq_pop, hp1]
    exact ⟨trivial, rfl, hp2, hsz.symm⟩
  · intro he
    simp [DccExInterface.write, he]
  · unfold DccExInterface.write
    split <;> rfl
  · unfold DccExInterface.write
    split <;> rfl

theorem C12_write_drains_one_witness :
    ((DccExInterface.setup zeroedSlots zeroedSlots).queue_c_p_msg 7 0 "<t 1 5>").write.1
        = [(0x12, { mid := 0, client := 7, p := 0, msg := "<t 1 5>" }),
           (0x34, { mid := 0, client := 7, p := 0, msg := "<t 1 5>" })] ∧
      ((DccExInterface.setup zeroedSlots zeroedSlots).queue_c_p_msg 7 0
        "<t 1 5>").write.2.outgoing.toList = [] :=
  have h := (C12_write_drains_one
    ((DccExInterface.setup zeroedSlots zeroedSlots).queue_c_p_msg 7 0 "<t 1 5>")
    (by decide)).1 { mid := 0, client := 7, p := 0, msg := "<t 1 5>" } [] (by decide)
  ⟨h.1, h.2.2.1⟩

/-- C13: `pop()` on an empty queue returns `T()` and leaves the queue (head, tail,
slots) as it is; on a non-empty queue it returns the element stored at index
`head_`, sets `head_` to `(head_ + 1) % S` and leaves `tail_` and every slot
unchanged. -/
theorem C13_pop_contract {T : Type} [Inhabited T] {S : Nat} (q : Queue T S) (h : q.Inv) :
    (q.isEmpty = true → q.pop.1 = default ∧ q.pop.2 = q) ∧
      (q.isEmpty = false →
        q.queue_[q.head_]? = some q.pop.1 ∧ q.pop.2.head_ = (q.head_ + 1) % S ∧
        q.pop.2.tail_ = q.tail_ ∧ q.pop.2.queue_ = q.queue_) := by
  constructor
  · intro he
    rw [Queue.pop_of_isEmpty q he]
    exact ⟨rfl, rfl⟩
  · intro he
    have hlen : q.head_ < q.queue_.length := by rw [h.1]; exact h.2.1
    have hp : q.pop
        = (q.queue_.getD q.head_ default, { q with head_ := (q.head_ + 1) % S }) := by
      simp [Queue.pop, he]
    rw [hp]
    refine ⟨?_, rfl, rfl, rfl⟩
    rw [List.getD_eq_getElem?_getD, List.getElem?_eq_getElem hlen]
    rfl

theorem C13_pop_contract_witness :
    (Queue.pop (Queue.new [0, 0, 0] : Queue Nat 3)).1 = default ∧
      ((Queue.pop ((Queue.new [0, 0, 0] : Queue Nat 3).push 5)).1 = 5 ∧
        (Queue.pop ((Queue.new [0, 0, 0] : Queue Nat 3).push 5)).2.head_ = 1) :=
  ⟨((C13_pop_contract (Queue.new [0, 0, 0] : Queue Nat 3) (by decide)).1 (by decide)).1,
    by decide⟩

/-- C14: `peek()` agrees with `pop()` and is read-only: in every queue state,
empty or not, `peek()` returns the value `pop()` would return, the queue after
`peek()` is the queue before it, and a `pop()` that follows a `peek()` returns
the element the `peek()` returned. -/
theorem C14_peek_agrees_with_pop {T : Type} [Inhabited T] {S : Nat} (q : Queue T S) :
    (q.invoke .peek).1 = (q.invoke .pop).1 ∧
      (q.invoke .peek).2 = q ∧
      (q.invoke .peek).2.head_ = q.head_ ∧ (q.invoke .peek).2.tail_ = q.tail_ ∧
      (q.invoke .peek).2.queue_ = q.queue_ ∧
      ((q.invoke .peek).2.invoke .pop).1 = (q.invoke .peek).1 ∧
      q.peek = q.pop.1 := by
  have h := Queue.peek_eq_pop q
  refine ⟨?_, rfl, rfl, rfl, rfl, ?_, h⟩
  · simp only [Queue.invoke, h]
  · simp only [Queue.invoke, h]

/-- C15: for `S ≥ 2` and every queue state with `head_ < S` and `tail_ < S`,
`isEmpty()` and `isFull()` are not both true. -/
theorem C15_not_empty_and_full {T : Type} {S : Nat} (q : Queue T S) (hS : 2 ≤ S)
    (_hh : q.head_ < S) (ht : q.tail_ < S) :
    ¬ (q.isEmpty = true ∧ q.isFull = true) := by
  intro ⟨he, hf⟩
  simp only [Queue.isEmpty, Queue.isFull, beq_iff_eq, Queue.succ_mod_of_lt ht] at he hf
  split at hf <;> omega

theorem C15_not_empty_and_full_witness :
    ¬ ((Queue.new [0, 0] : Queue Nat 2).isEmpty = true ∧
      (Queue.new [0, 0] : Queue Nat 2).isFull = true) :=
  C15_not_empty_and_full (Queue.new [0, 0] : Queue Nat 2) (by decide) (by decide) (by decide)

theorem Queue.drainAux_spec {T : Type} {S : Nat} [Inhabited T] (fuel : Nat) (q : Queue T S)
    (h : q.Inv) (hfuel : q.size ≤ fuel) :
    (q.drainAux fuel).1 = q.toList ∧ (q.drainAux fuel).2.isEmpty = true := by
  induction fuel generalizing q with
  | zero =>
    have he : q.isEmpty = true := (Queue.isEmpty_iff q h).mpr (by omega)
    exact ⟨((Queue.isEmpty_iff_toList q h).mp he).symm, he⟩
  | succ fuel ih =>
    cases he : q.isEmpty with
    | true =>
      have hd : q.drainAux (fuel + 1) = ([], q) := by
        simp only [Queue.drainAux, he, if_true]
      rw [hd]
      exact ⟨((Queue.isEmpty_iff_toList q h).mp he).symm, he⟩
    | false =>
      have hsz := Queue.size_pop q h he
      obtain ⟨h1, h2⟩ := ih q.pop.2 (Queue.pop_inv q h) (by omega)
      have hd : q.drainAux (fuel + 1)
          = (q.pop.1 :: (q.pop.2.drainAux fuel).1, (q.pop.2.drainAux fuel).2) := by
        simp only [Queue.drainAux, he, Bool.false_eq_true, if_false]
      rw [hd]
      exact ⟨by rw [h1, ← Queue.toList_pop q h he], h2⟩

theorem Queue.size_eq_drain_length {T : Type} {S : Nat} [Inhabited T] (q : Queue T S)
    (h : q.Inv) : q.size = q.drain.1.length ∧ q.drain.2.isEmpty = true := by
  have hlt := Queue.size_lt q h
  obtain ⟨h1, h2⟩ := Queue.drainAux_spec S q h (by omega)
  exact ⟨by rw [Queue.drain, h1, Queue.length_toList], h2⟩

/-- C16: in a channel state whose queues satisfy the representation invariant,
`size(IN)` is the number of envelopes in the inbound queue and `size(OUT)` the
number in the outbound queue, where the envelopes in a queue are counted
without `size()`: they are the envelopes that successive `pop()` calls deliver
until `isEmpty()` holds, and, for a queue that results from any sequence of
`push` and `pop` calls on a fresh queue, the elements that sequence leaves in
the bounded list.  Every other direction value gives 0, and in all cases the
channel state (both queues and the counter) after the call is the state before
it. -/
theorem C16_channel_size (d : DccExInterface) (hin : d.incomming.Inv)
    (hout : d.outgoing.Inv) :
    (d.size IN).1 = (d.incomming.drain.1.length : Int) ∧
      d.incomming.drain.2.isEmpty = true ∧
      (d.size OUT).1 = (d.outgoing.drain.1.length : Int) ∧
      d.outgoing.drain.2.isEmpty = true ∧
      (∀ (mem : List DccMessage) (ops : List (QOp DccMessage)),
        mem.length = MAX_QUEUE_SIZE → d.incomming = ((Queue.new mem : _tDccQueue).run ops).2 →
        (d.size IN).1 = ((specRun MAX_QUEUE_SIZE [] ops).2.length : Int)) ∧
      (∀ (mem : List DccMessage) (ops : List (QOp DccMessage)),
        mem.length = MAX_QUEUE_SIZE → d.outgoing = ((Queue.new mem : _tDccQueue).run ops).2 →
        (d.size OUT).1 = ((specRun MAX_QUEUE_SIZE [] ops).2.length : Int)) ∧
      (∀ q : Nat, q ≠ IN → q ≠ OUT → (d.size q).1 = 0) ∧
      (∀ q : Nat, (d.size q).2 = d) := by
  have hconv : ∀ q : _tDccQueue, q.Inv → toInt INT_BITS q.size = (q.size : Int) := by
    intro q hq
    exact toInt_of_lt (lt_of_lt_of_le (Queue.size_lt q hq) (by decide))
  have hhist : ∀ (q : _tDccQueue) (mem : List DccMessage) (ops : List (QOp DccMessage)),
      mem.length = MAX_QUEUE_SIZE → q = ((Queue.new mem : _tDccQueue).run ops).2 →
      q.size = (specRun MAX_QUEUE_SIZE [] ops).2.length := by
    intro q mem ops hmem hq
    obtain ⟨_, _, h3⟩ :=
      Queue.run_spec ops (Queue.new mem : _tDccQueue) (Queue.new_inv mem hmem (by decide))
    rw [Queue.toList_new] at h3
    rw [hq, ← h3, Queue.length_toList]
  have hne : ¬ OUT = IN := by decide
  have hsin : (d.size IN).1 = (d.incomming.size : Int) := by
    simp only [DccExInterface.size, if_true]
    exact hconv _ hin
  have hsout : (d.size OUT).1 = (d.outgoing.size : Int) := by
    simp only [DccExInterface.size, if_neg hne, if_true]
    exact hconv _ hout
  obtain ⟨hdin, hein⟩ := Queue.size_eq_drain_length d.incomming hin
  obtain ⟨hdout, heout⟩ := Queue.size_eq_drain_length d.outgoing hout
  refine ⟨?_, hein, ?_, heout, ?_, ?_, ?_, ?_⟩
  · rw [hsin, hdin]
  · rw [hsout, hdout]
  · intro mem ops hmem hq
    rw [hsin, hhist _ mem ops hmem hq]
  · intro mem ops hmem hq
    rw [hsout, hhist _ mem ops hmem hq]
  · intro q h1 h2
    simp only [DccExInterface.size, if_neg h1, if_neg h2]
  · intro q
    unfold DccExInterface.size
    split
    · rfl
    · split <;> rfl

set_option maxRecDepth 1000000 in
theorem C16_channel_size_witness :
    (DccExInterface.size
        { seq := 60,
          incomming := { queue_ := zeroedSlots, head_ := 48, tail_ := 2 },
          outgoing := Queue.push (Queue.new zeroedSlots)
            { mid := 8, client := 7, p := 3, msg := "earlier" } } IN).1 = 4 ∧
      (Queue.drain ({ queue_ := zeroedSlots, head_ := 48, tail_ := 2 } : _tDccQueue)).1.length
        = 4 ∧
      (DccExInterface.size
        { seq := 60,
          incomming := { queue_ := zeroedSlots, head_ := 48, tail_ := 2 },
          outgoing := Queue.push (Queue.new zeroedSlots)
            { mid := 8, client := 7, p := 3, msg := "earlier" } } OUT).1 = 1 :=
  have h := C16_channel_size
    { seq := 60,
      incomming := { queue_ := zeroedSlots, head_ := 48, tail_ := 2 },
      outgoing := Queue.push (Queue.new zeroedSlots)
        { mid := 8, client := 7, p := 3, msg := "earlier" } }
    (by decide) (by decide)
  have hlen : (Queue.drain
      ({ queue_ := zeroedSlots, head_ := 48, tail_ := 2 } : _tDccQueue)).1.length = 4 := by
    decide
  ⟨by rw [h.1, hlen]; rfl, hlen, by rw [h.2.2.1]; decide⟩

/-- C17: for `S ≥ 1` the index invariant `head_ < S ∧ tail_ < S` holds for the
constructed queue and is preserved by `push`, `pop`, `peek`, `size`, `isEmpty`
and `isFull` on every input, and under it every subscript `queue_[head_]` or
`queue_[tail_]` that `push`, `pop` or `peek` evaluates is below `S`; the calls
also keep the number of slots of the backing array. -/
theorem C17_index_invariant {T : Type} [Inhabited T] (S : Nat) (hS : 1 ≤ S) :
    (∀ mem : List T, (Queue.new mem : Queue T S).IndexInv) ∧
      (∀ (q : Queue T S) (c : QMethod T), q.IndexInv → (q.invoke c).2.IndexInv) ∧
      (∀ (q : Queue T S) (c : QMethod T) (i : Nat),
        q.IndexInv → q.access c = some i → i < S) ∧
      (∀ (q : Queue T S) (c : QMethod T), (q.invoke c).2.queue_.length = q.queue_.length) := by
  refine ⟨fun mem => ⟨hS, hS⟩, ?_, ?_, ?_⟩
  · intro q c ⟨hh, ht⟩
    cases c with
    | push x =>
      simp only [Queue.invoke, Queue.push]
      split
      · exact ⟨hh, ht⟩
      · exact ⟨hh, Nat.mod_lt _ (by omega)⟩
    | pop =>
      simp only [Queue.invoke, Queue.pop]
      split
      · exact ⟨hh, ht⟩
      · exact ⟨Nat.mod_lt _ (by omega), ht⟩
    | peek => exact ⟨hh, ht⟩
    | size => exact ⟨hh, ht⟩
    | isEmpty => exact ⟨hh, ht⟩
    | isFull => exact ⟨hh, ht⟩
  · intro q c i ⟨hh, ht⟩ hacc
    cases c with
    | push x =>
      simp only [Queue.access] at hacc
      split at hacc
      · cases hacc
      · cases hacc; exact ht
    | pop =>
      simp only [Queue.access] at hacc
      split at hacc
      · cases hacc
      · cases hacc; exact hh
    | peek =>
      simp only [Queue.access] at hacc
      split at hacc
      · cases hacc
      · cases hacc; exact hh
    | size => cases hacc
    | isEmpty => cases hacc
    | isFull => cases hacc
  · intro q c
    cases c with
    | push x =>
      simp only [Queue.invoke, Queue.push]
      split
      · rfl
      · simp
    | pop =>
      simp only [Queue.invoke, Queue.pop]
      split <;> rfl
    | peek => rfl
    | size => rfl
    | isEmpty => rfl
    | isFull => rfl

theorem C17_index_invariant_witness :
    ((Queue.new [0] : Queue Nat 1).invoke (.push 5)).2.IndexInv ∧
      (((Queue.new [0, 0, 0] : Queue Nat 3).invoke (.push 5)).2.invoke .pop).2.IndexInv :=
  ⟨(C17_index_invariant (T := Nat) 1 (by decide)).2.1 _ _
      ((C17_index_invariant (T := Nat) 1 (by decide)).1 [0]),
    by decide⟩

/-- C19: the inbound callback stores the envelope as received.  When the
inbound queue is not full, `foofunc2(msg)` appends `msg` itself (`mid`,
`client`, `p` and `msg` as received) to the inbound queue; when it is full the
envelope is dropped and the inbound queue is unchanged.  In both cases the
outbound queue and the counter are unchanged. -/
theorem C19_callback_stores_as_received (d : DccExInterface) (msg : DccMessage)
    (hin : d.incomming.Inv) :
    (d.incomming.isFull = false →
        (d.foofunc2 msg).incomming.toList = d.incomming.toList ++ [msg]) ∧
      (d.incomming.isFull = true → (d.foofunc2 msg).incomming = d.incomming) ∧
      (d.foofunc2 msg).outgoing = d.outgoing ∧ (d.foofunc2 msg).seq = d.seq := by
  refine ⟨?_, ?_, ?_, ?_⟩
  · intro hf
    simp only [DccExInterface.foofunc2, hf, Bool.not_false, if_true]
    exact Queue.toList_push _ _ hin hf
  · intro hf
    simp [DccExInterface.foofunc2, hf]
  · unfold DccExInterface.foofunc2
    split <;> rfl
  · unfold DccExInterface.foofunc2
    split <;> rfl

theorem C19_callback_stores_as_received_witness :
    ((DccExInterface.setup zeroedSlots zeroedSlots).foofunc2
        { mid := 9, client := 3, p := 0, msg := "<1 THROW>" }).incomming.toList
      = [{ mid := 9, client := 3, p := 0, msg := "<1 THROW>" }] :=
  (C19_callback_stores_as_received (DccExInterface.setup zeroedSlots zeroedSlots)
    { mid := 9, client := 3, p := 0, msg := "<1 THROW>" } (by decide)).1 (by decide)

/-! ## The service tick -/

namespace DccExInterface

theorem write_spec (d : DccExInterface) (hout : d.outgoing.Inv) :
    d.write.2.outgoing.Inv ∧ d.write.2.outgoing.toList = d.outgoing.toList.tail ∧
      d.write.2.outgoing.isFull = false ∧ d.write.2.incomming = d.incomming ∧
      d.write.2.seq = d.seq := by
  have hS : 2 ≤ MAX_QUEUE_SIZE := by decide
  cases he : d.outgoing.isEmpty with
  | true =>
    have hw : d.write.2 = d := by simp [write, he]
    rw [hw, (Queue.isEmpty_iff_toList _ hout).mp he]
    exact ⟨hout, rfl, Queue.isFull_eq_false_of_isEmpty _ hout hS he, rfl, rfl⟩
  | false =>
    have hw : d.write.2 = { d with outgoing := d.outgoing.pop.2 } := by simp [write, he]
    have hinv := Queue.pop_inv d.outgoing hout
    have hl := Queue.toList_pop d.outgoing hout he
    have hsz := Queue.size_pop d.outgoing hout he
    have hlt := Queue.size_lt d.outgoing hout
    rw [hw]
    refine ⟨hinv, by rw [hl]; rfl, ?_, rfl, rfl⟩
    cases hq : d.outgoing.pop.2.isFull with
    | false => rfl
    | true =>
      have := (Queue.isFull_iff _ hinv).mp hq
      simp only at this
      omega

theorem write_sent (d : DccExInterface) (hout : d.outgoing.Inv) :
    (d.outgoing.toList = [] → d.write.1 = []) ∧
      (∀ m rest, d.outgoing.toList = m :: rest →
        d.write.1 = [(send_index, m), (0x34, m)]) := by
  constructor
  · intro hl
    have he := (Queue.isEmpty_iff_toList _ hout).mpr hl
    simp [write, he]
  · intro m rest hl
    obtain ⟨hp1, _⟩ := Queue.pop_of_toList_cons d.outgoing hout hl
    have hne : d.outgoing.isEmpty = false := by
      cases hq : d.outgoing.isEmpty with
      | false => rfl
      | true => rw [(Queue.isEmpty_iff_toList _ hout).mp hq] at hl; cases hl
    simp only [write, hne, Bool.not_false, if_true, Queue.peek_eq_pop, hp1]

theorem recieve_of_empty (d : DccExInterface) (he : d.incomming.isEmpty = true) :
    d.recieve = some d := by
  simp [recieve, he]

theorem recieve_of_front (d : DccExInterface) (m : DccMessage) (rest : List DccMessage)
    (hin : d.incomming.Inv) (hout : d.outgoing.Inv) (hfront : d.incomming.toList = m :: rest)
    (hroom : d.outgoing.isFull = false)
    (hfit : (replyText m).utf8ByteSize + 1 ≤ MAX_MESSAGE_SIZE) :
    ∃ r, d.recieve = some r ∧ r.incomming.toList = rest ∧
      r.outgoing.toList = d.outgoing.toList ++
        [d.envelope (toU16 m.client) (toU8 _REPLY) (replyText m)] ∧
      r.seq = nextSeq d.seq := by
  obtain ⟨hp1, hp2⟩ := Queue.pop_of_toList_cons d.incomming hin hfront
  have hne : d.incomming.isEmpty = false := by
    cases hq : d.incomming.isEmpty with
    | false => rfl
    | true => rw [(Queue.isEmpty_iff_toList _ hin).mp hq] at hfront; cases hfront
  have hpeek : d.incomming.peek = m := by rw [Queue.peek_eq_pop, hp1]
  have hrec : d.recieve = some
      { seq := nextSeq d.seq, incomming := d.incomming.pop.2,
        outgoing := d.outgoing.push
          (d.envelope (toU16 m.client) (toU8 _REPLY) (replyText m)) } := by
    simp only [recieve, hne, Bool.not_false, if_true, hpeek, if_pos hfit, queue_c_p_msg]
  exact ⟨_, hrec, hp2, Queue.toList_push _ _ hout hroom, rfl⟩

end DccExInterface

theorem DccExInterface.recieve_none_of_overrun (d : DccExInterface) (m : DccMessage)
    (rest : List DccMessage) (hin : d.incomming.Inv) (hfront : d.incomming.toList = m :: rest)
    (hover : ¬ (DccExInterface.replyText m).utf8ByteSize + 1 ≤ MAX_MESSAGE_SIZE) :
    d.recieve = none := by
  obtain ⟨hp1, _⟩ := Queue.pop_of_toList_cons d.incomming hin hfront
  have hne : d.incomming.isEmpty = false := by
    cases hq : d.incomming.isEmpty with
    | false => rfl
    | true => rw [(Queue.isEmpty_iff_toList _ hin).mp hq] at hfront; cases hfront
  have hpeek : d.incomming.peek = m := by rw [Queue.peek_eq_pop, hp1]
  simp only [DccExInterface.recieve, hne, Bool.not_false, if_true, hpeek, if_neg hover]

theorem DccExInterface.tick_spec (d : DccExInterface) (rx : List DccMessage)
    (hin : d.incomming.Inv) (hout : d.outgoing.Inv)
    (hfit : ∀ m rest, d.incomming.toList = m :: rest →
      ("reply from CS: " ++ toString m.client ++ ":" ++ toString m.mid ++ ":"
        ++ m.msg).utf8ByteSize + 1 ≤ MAX_MESSAGE_SIZE) :
    ∃ sent r, d.writeRecieve = some (sent, r) ∧
      d.loop rx = some (sent, rx.foldl DccExInterface.foofunc2 r) ∧
      (d.outgoing.toList = [] → sent = []) ∧
      (∀ m0 rest0, d.outgoing.toList = m0 :: rest0 →
        sent = [(send_index, m0), (0x34, m0)]) ∧
      (d.incomming.toList = [] →
        r.incomming.toList = [] ∧ r.outgoing.toList = d.outgoing.toList.tail) ∧
      (∀ m rest, d.incomming.toList = m :: rest →
        r.incomming.toList = rest ∧
        ∃ reply : DccMessage, reply.p = _REPLY ∧
          reply.msg = "reply from CS: " ++ toString m.client ++ ":" ++ toString m.mid ++ ":"
            ++ m.msg ∧
          r.outgoing.toList = d.outgoing.toList.tail ++ [reply]) := by
  obtain ⟨hwinv, hwl, hwroom, hwin, _⟩ := DccExInterface.write_spec d hout
  obtain ⟨hs1, hs2⟩ := DccExInterface.write_sent d hout
  have hin2 : d.write.2.incomming.Inv := by rw [hwin]; exact hin
  have hrep : toInt INT_BITS (toU8 _REPLY % 2 ^ 8) = _REPLY := by decide
  cases hl : d.incomming.toList with
  | nil =>
    have he : d.write.2.incomming.isEmpty = true := by
      rw [hwin]; exact (Queue.isEmpty_iff_toList _ hin).mpr hl
    have hrec := DccExInterface.recieve_of_empty d.write.2 he
    have hwr : d.writeRecieve = some (d.write.1, d.write.2) := by
      simp only [DccExInterface.writeRecieve, hrec]
    refine ⟨d.write.1, d.write.2, hwr, ?_, hs1, hs2, ?_, ?_⟩
    · simp only [DccExInterface.loop, hwr]
    · intro _
      exact ⟨by rw [hwin]; exact hl, hwl⟩
    · intro m rest h
      cases h
  | cons m rest =>
    have hfront : d.write.2.incomming.toList = m :: rest := by rw [hwin]; exact hl
    obtain ⟨r, hrec, hr1, hr2, _⟩ :=
      DccExInterface.recieve_of_front d.write.2 m rest hin2 hwinv hfront hwroom
        (hfit m rest hl)
    have hwr : d.writeRecieve = some (d.write.1, r) := by
      simp only [DccExInterface.writeRecieve, hrec]
    refine ⟨d.write.1, r, hwr, ?_, hs1, hs2, ?_, ?_⟩
    · simp only [DccExInterface.loop, hwr]
    · intro h
      cases h
    · intro m1 rest1 h
      injection h with h1 h2
      subst h1
      subst h2
      refine ⟨hr1, _, ?_, ?_, by rw [hr2, hwl]⟩
      · simp only [DccExInterface.envelope, hrep]
      · rfl

/-- C18: one service tick drains at most one item per queue, outbound first.
`loop()` runs `write()`, then `recieve()`, then polls the transport.  Whenever
the two calls return, `write()` has transmitted nothing when the outbound queue
was empty and otherwise exactly its front envelope (under the two index
bytes); `recieve()` has removed nothing when the inbound queue was empty and
otherwise exactly its front envelope `m`, and in that case the reply to `m` is
the last element of the outbound queue when `recieve()` returns: it always
finds room, is not among the transmissions of this tick, and sits behind what
`write()` left in the queue.  The two calls do return whenever the reply to the
front inbound envelope, if there is one, fits `buffer`. -/
theorem C18_tick_drains_one_each (d : DccExInterface) (rx : List DccMessage)
    (hin : d.incomming.Inv) (hout : d.outgoing.Inv) :
    (∀ sent r, d.writeRecieve = some (sent, r) →
      d.loop rx = some (sent, rx.foldl DccExInterface.foofunc2 r) ∧
      (d.outgoing.toList = [] → sent = []) ∧
      (∀ m0 rest0, d.outgoing.toList = m0 :: rest0 →
        sent = [(send_index, m0), (0x34, m0)]) ∧
      (d.incomming.toList = [] →
        r.incomming.toList = [] ∧ r.outgoing.toList = d.outgoing.toList.tail) ∧
      (∀ m rest, d.incomming.toList = m :: rest →
        r.incomming.toList = rest ∧
        ∃ reply : DccMessage, reply.p = _REPLY ∧
          reply.msg = "reply from CS: " ++ toString m.client ++ ":" ++ toString m.mid ++ ":"
            ++ m.msg ∧
          r.outgoing.toList = d.outgoing.toList.tail ++ [reply])) ∧
      ((∀ m rest, d.incomming.toList = m :: rest →
          ("reply from CS: " ++ toString m.client ++ ":" ++ toString m.mid ++ ":"
            ++ m.msg).utf8ByteSize + 1 ≤ MAX_MESSAGE_SIZE) →
        ∃ sent r, d.writeRecieve = some (sent, r)) := by
  constructor
  · intro sent r hwr
    by_cases hfit : ∀ m rest, d.incomming.toList = m :: rest →
        ("reply from CS: " ++ toString m.client ++ ":" ++ toString m.mid ++ ":"
          ++ m.msg).utf8ByteSize + 1 ≤ MAX_MESSAGE_SIZE
    · obtain ⟨sent1, r1, h1, h2, h3, h4, h5, h6⟩ :=
        DccExInterface.tick_spec d rx hin hout hfit
      rw [h1] at hwr
      injection hwr with hwr
      injection hwr with hs hr
      subst hs
      subst hr
      exact ⟨h2, h3, h4, h5, h6⟩
    · exfalso
      simp only [not_forall] at hfit
      obtain ⟨m, rest, hfront, hover⟩ := hfit
      obtain ⟨_, _, _, hwin, _⟩ := DccExInterface.write_spec d hout
      have hnone := DccExInterface.recieve_none_of_overrun d.write.2 m rest
        (by rw [hwin]; exact hin) (by rw [hwin]; exact hfront) hover
      simp only [DccExInterface.writeRecieve, hnone] at hwr
      cases hwr
  · intro hfit
    obtain ⟨sent1, r1, h1, _⟩ := DccExInterface.tick_spec d rx hin hout hfit
    exact ⟨sent1, r1, h1⟩

theorem C18_tick_drains_one_each_witness :
    DccExInterface.writeRecieve
        { seq := 10,
          incomming := Queue.push (Queue.new zeroedSlots)
            { mid := 9, client := 3, p := 0, msg := "<1 THROW>" },
          outgoing := Queue.push (Queue.new zeroedSlots)
            { mid := 8, client := 7, p := 3, msg := "earlier" } }
      = some ([(0x12, { mid := 8, client := 7, p := 3, msg := "earlier" }),
               (0x34, { mid := 8, client := 7, p := 3, msg := "earlier" })],
              { seq := 11, incomming := (Queue.pop (Queue.push (Queue.new zeroedSlots)
                  { mid := 9, client := 3, p := 0, msg := "<1 THROW>" })).2,
                outgoing := Queue.push (Queue.pop (Queue.push (Queue.new zeroedSlots)
                    { mid := 8, client := 7, p := 3, msg := "earlier" })).2
                  { mid := 10, client := 3, p := 3, msg := "reply from CS: 3:9:<1 THROW>" } }) ∧
      ∃ reply : DccMessage, reply.p = _REPLY ∧
        reply.msg = "reply from CS: 3:9:<1 THROW>" ∧
        (Queue.push (Queue.pop (Queue.push (Queue.new zeroedSlots : _tDccQueue)
            { mid := 8, client := 7, p := 3, msg := "earlier" })).2
          { mid := 10, client := 3, p := 3, msg := "reply from CS: 3:9:<1 THROW>" }).toList
          = [reply] :=
  have hrun : DccExInterface.writeRecieve
        { seq := 10,
          incomming := Queue.push (Queue.new zeroedSlots)
            { mid := 9, client := 3, p := 0, msg := "<1 THROW>" },
          outgoing := Queue.push (Queue.new zeroedSlots)
            { mid := 8, client := 7, p := 3, msg := "earlier" } }
      = some ([(0x12, { mid := 8, client := 7, p := 3, msg := "earlier" }),
               (0x34, { mid := 8, client := 7, p := 3, msg := "earlier" })],
              { seq := 11, incomming := (Queue.pop (Queue.push (Queue.new zeroedSlots)
                  { mid := 9, client := 3, p := 0, msg := "<1 THROW>" })).2,
                outgoing := Queue.push (Queue.pop (Queue.push (Queue.new zeroedSlots)
                    { mid := 8, client := 7, p := 3, msg := "earlier" })).2
                  { mid := 10, client := 3, p := 3,
                    msg := "reply from CS: 3:9:<1 THROW>" } }) := by
    decide
  ⟨hrun,
    ((C18_tick_drains_one_each _ [] (by decide) (by decide)).1 _ _ hrun).2.2.2.2
      { mid := 9, client := 3, p := 0, msg := "<1 THROW>" } [] (by decide) |>.2⟩

/-! ## The counter and the ids of stored envelopes -/

theorem toInt_eq_imp_mod {a b : Nat} (h : toInt INT_BITS a = toInt INT_BITS b) :
    a % 65536 = b % 65536 := by
  simp only [toInt, INT_BITS, Nat.reduceSub, Nat.reducePow] at h
  split at h <;> split at h <;> omega

theorem DccExInterface.mids_nodup_window (d : DccExInterface) (cs : List QueueCall)
    (hlen : cs.length ≤ 2 ^ INT_BITS) : (d.mids cs).Nodup := by
  rw [DccExInterface.mids_eq]
  apply List.Nodup.map_on _ (List.nodup_range _)
  intro i hi j hj hij
  have hi1 : i < cs.length := List.mem_range.mp hi
  have hj1 : j < cs.length := List.mem_range.mp hj
  have hlen2 : cs.length ≤ 65536 := hlen
  have h1 := toInt_eq_imp_mod hij
  have e : (2 : Nat) ^ 64 = 18446744073709551616 := by norm_num
  rw [e] at h1
  omega

/-- C20, as the code has it: every call of `queue(c, p, msg)` or
`queue(q, packet)` advances the `uint64_t` counter `seq` by one (modulo
`2 ^ 64`, so by exactly 1 below the last counter value), whether the envelope
is stored or dropped because the target queue is full or `q` is neither `IN`
nor `OUT`.  Consequently the ids of the envelopes stored in a queue can have
gaps, and the id written by a call, stored or dropped, is not written again by
any of the next `2 ^ INT_BITS - 1` calls. -/
theorem C20_counter_advances_on_every_call (d : DccExInterface) (c : QueueCall) :
    (d.call c).seq = (d.seq + 1) % 2 ^ 64 ∧
      (d.seq + 1 < 2 ^ 64 → (d.call c).seq = d.seq + 1) ∧
      (∀ cs : List QueueCall, cs.length ≤ 2 ^ INT_BITS → (d.mids cs).Nodup) ∧
      (((DccExInterface.setup zeroedSlots zeroedSlots).calls
          [.q_packet IN default, .q_packet UNKNOWN_QUEUE_TYPE default,
           .q_packet IN default]).incomming.toList.map (fun m => m.mid)) = [0, 2] := by
  refine ⟨DccExInterface.call_seq d c, ?_, fun cs h => DccExInterface.mids_nodup_window d cs h,
    by decide⟩
  intro h
  rw [DccExInterface.call_seq d c]
  exact Nat.mod_eq_of_lt h

/-- C20 as stated fails twice.  The id of a dropped envelope is written again:
of 65537 calls of `queue(UNKNOWN_QUEUE_TYPE, packet)` on a fresh instance, all
dropped, the first and the last both write `mid = 0`.  And at the last value of
the counter a call does not increase `seq` by 1 but takes it to 0. -/
theorem C20_counterexample :
    ¬ ((DccExInterface.setup zeroedSlots zeroedSlots).mids
        (List.replicate 65537 (.q_packet UNKNOWN_QUEUE_TYPE default))).Nodup ∧
      (DccExInterface.setup zeroedSlots zeroedSlots).calls
          (List.replicate 18446744073709551615 (.q_packet UNKNOWN_QUEUE_TYPE default))
        = { seq := 18446744073709551615, incomming := Queue.new zeroedSlots,
            outgoing := Queue.new zeroedSlots } ∧
      (DccExInterface.call
        { seq := 18446744073709551615, incomming := Queue.new zeroedSlots,
          outgoing := Queue.new zeroedSlots }
        (.q_packet UNKNOWN_QUEUE_TYPE default)).seq = 0 := by
  refine ⟨?_, ?_, by decide⟩
  · intro h
    rw [DccExInterface.mids_eq, List.length_replicate] at h
    have h2 := List.pairwise_iff_getElem.mp h 0 65536 (by simp) (by simp) (by decide)
    simp only [List.getElem_map, List.getElem_range, DccExInterface.setup, Nat.zero_add] at h2
    revert h2
    decide
  · rw [DccExInterface.calls_replicate_dropped default 18446744073709551615 _ (by decide)]
    rfl

/-! ## A command whose reply is dropped -/

theorem DccExInterface.recieve_eq_of_front (d : DccExInterface) (m : DccMessage)
    (rest : List DccMessage) (hin : d.incomming.Inv) (hfront : d.incomming.toList = m :: rest)
    (hfit : (DccExInterface.replyText m).utf8ByteSize + 1 ≤ MAX_MESSAGE_SIZE) :
    d.recieve = some
      { seq := DccExInterface.nextSeq d.seq, incomming := d.incomming.pop.2,
        outgoing := d.outgoing.push
          (d.envelope (toU16 m.client) (toU8 _REPLY) (DccExInterface.replyText m)) } ∧
      d.incomming.pop.2.toList = rest := by
  obtain ⟨hp1, hp2⟩ := Queue.pop_of_toList_cons d.incomming hin hfront
  have hne : d.incomming.isEmpty = false := by
    cases hq : d.incomming.isEmpty with
    | false => rfl
    | true => rw [(Queue.isEmpty_iff_toList _ hin).mp hq] at hfront; cases hfront
  have hpeek : d.incomming.peek = m := by rw [Queue.peek_eq_pop, hp1]
  refine ⟨?_, hp2⟩
  simp only [DccExInterface.recieve, hne, Bool.not_false, if_true, hpeek, if_pos hfit,
    DccExInterface.queue_c_p_msg]

/-- C21: a command is consumed even when its reply is dropped.  In a state
whose inbound queue holds `m` followed by `rest` and whose outbound queue is
full, whenever `recieve()` returns it has left the outbound queue exactly as it
was (head, tail and every slot: the reply was discarded by `push`) and the
inbound queue holds `rest`, so `m` is neither answered nor kept for a later
tick; the counter has still advanced.  `recieve()` does return whenever the
reply to `m` fits `buffer`. -/
theorem C21_command_consumed_reply_dropped (d : DccExInterface) (m : DccMessage)
    (rest : List DccMessage) (hin : d.incomming.Inv)
    (hfront : d.incomming.toList = m :: rest) (hfull : d.outgoing.isFull = true) :
    (∀ r, d.recieve = some r →
      r.outgoing = d.outgoing ∧ r.outgoing.toList = d.outgoing.toList ∧
      r.incomming.toList = rest ∧ r.seq = (d.seq + 1) % 2 ^ 64) ∧
      (("reply from CS: " ++ toString m.client ++ ":" ++ toString m.mid ++ ":"
          ++ m.msg).utf8ByteSize + 1 ≤ MAX_MESSAGE_SIZE →
        ∃ r, d.recieve = some r) := by
  constructor
  · intro r hr
    by_cases hfit : (DccExInterface.replyText m).utf8ByteSize + 1 ≤ MAX_MESSAGE_SIZE
    · obtain ⟨hrec, hrest⟩ := DccExInterface.recieve_eq_of_front d m rest hin hfront hfit
      rw [hrec, Queue.push_of_isFull _ _ hfull] at hr
      injection hr with hr
      subst hr
      exact ⟨rfl, rfl, hrest, rfl⟩
    · rw [DccExInterface.recieve_none_of_overrun d m rest hin hfront hfit] at hr
      cases hr
  · intro hfit
    exact ⟨_, (DccExInterface.recieve_eq_of_front d m rest hin hfront hfit).1⟩

set_option maxRecDepth 1000000 in
theorem C21_command_consumed_reply_dropped_witness :
    ∃ r, DccExInterface.recieve ((DccExInterface.setup zeroedSlots zeroedSlots).calls
        (List.replicate 49 (.c_p_msg 0 0 "") ++
          [.q_packet IN { mid := 9, client := 3, p := 0, msg := "<1 THROW>" }])) = some r ∧
      r.outgoing = ((DccExInterface.setup zeroedSlots zeroedSlots).calls
        (List.replicate 49 (.c_p_msg 0 0 "") ++
          [.q_packet IN { mid := 9, client := 3, p := 0, msg := "<1 THROW>" }])).outgoing ∧
      r.incomming.toList = [] :=
  have h := C21_command_consumed_reply_dropped
    ((DccExInterface.setup zeroedSlots zeroedSlots).calls
      (List.replicate 49 (.c_p_msg 0 0 "") ++
        [.q_packet IN { mid := 9, client := 3, p := 0, msg := "<1 THROW>" }]))
    { mid := 49, client := 3, p := 0, msg := "<1 THROW>" } []
    (by decide) (by decide) (by decide)
  match h.2 (by decide) with
  | ⟨r, hr⟩ => ⟨r, hr, (h.1 r hr).1, (h.1 r hr).2.2.1⟩

end DccEx
